import Mathlib

/-!
# elastix: registration driver and metric base class

A shallow embedding of

* `src/Core/Main/elastix.cxx` (`main`): command-line parsing, setup checks and
  the loop over the registrations (one per `-p` argument);
* `src/Core/ComponentBaseClasses/elxMetricBase.hxx` (`MetricBase`): the
  per-resolution set-up of a metric and the exact metric value;
* the default pyramid schedule, which the header
  `src/Common/itkMultiResolutionGaussianSmoothingPyramidImageFilter.h` only
  describes and which is therefore modelled from the specification.

Calls that leave the translated code (`FileIsDirectory`, `xoutSetup`,
`ElastixMain::Run`, the metric's `GetValue`, `Configuration::ReadParameter`)
are parameters of the embedding; the calls that matter for the behaviour of the
program are recorded, in program order, in a trace of events.
-/

namespace elastix

/-! ## Strings and the argument map -/

/-- The value `std::string::npos` (the largest `size_t`). -/
def npos : Nat := 2 ^ 64 - 1

/-- Scan of `find_last_of`: `i` is the index of the head of the list and
`last` the index of the last occurrence seen so far. -/
def findLastFrom (c : Char) : List Char → Nat → Nat → Nat
  | [], _, last => last
  | d :: ds, i, last => findLastFrom c ds (i + 1) (if d = c then i else last)

/-- The function `std::string::find_last_of` for a one-character set: the index of the last
occurrence of `c` in `s`, or `npos` when there is none. -/
def find_last_of (s : String) (c : Char) : Nat :=
  findLastFrom c s.data 0 npos

/-- The expression `value.size() - 1` in `size_t` arithmetic. -/
def sizeMinusOne (s : String) : Nat :=
  (s.length + 2 ^ 64 - 1) % 2 ^ 64

/-- Lines 92-95 of `main`: append a `/` to the output folder unless the last
`/` of the value sits at index `size() - 1`. -/
def appendSlash (value : String) : String :=
  if find_last_of value '/' ≠ sizeMinusOne value then value ++ "/" else value

/-- The type `ArgumentMapType`, a `std::map` from strings to strings, as an association
list with at most one entry per key. -/
abbrev ArgumentMapType := List (String × String)

/-- The type `ArgPairType`, an entry of the queue of parameter files. -/
abbrev ArgPairType := String × String

/-- The function `std::map::count`: 1 when the key has an entry, 0 otherwise. -/
def mapCount : ArgumentMapType → String → Nat
  | [], _ => 0
  | e :: m, k => if e.1 = k then 1 else mapCount m k

/-- The function `std::map::insert`: adds the entry unless the key already has one. -/
def mapInsert (m : ArgumentMapType) (k v : String) : ArgumentMapType :=
  if mapCount m k = 0 then m ++ [(k, v)] else m

/-- The function `std::map::erase` by key. -/
def mapErase : ArgumentMapType → String → ArgumentMapType
  | [], _ => []
  | e :: m, k => if e.1 = k then mapErase m k else e :: mapErase m k

/-- Lookup of a key (`std::map::find`), `none` when the key has no entry. -/
def mapFind : ArgumentMapType → String → Option String
  | [], _ => none
  | e :: m, k => if e.1 = k then some e.2 else mapFind m k

/-! ## C `int` arithmetic -/

/-- The `int` with the given 32-bit two's complement representation. -/
def toInt32 (n : Nat) : Int :=
  if n < 2 ^ 31 then (n : Int) else (n : Int) - 2 ^ 32

/-- The 32-bit two's complement representation of an `int`. -/
def bitsOfInt (a : Int) : Nat := (a % 2 ^ 32).toNat

/-- The operator `|` on two `int`s (as used by `returndummy |= ...`). -/
def orInt (a b : Int) : Int := toInt32 (bitsOfInt a ||| bitsOfInt b)

/-! ## The outside world of `main` -/

/-- The type `ObjectPointer`: a smart pointer to an object, `none` being the null
pointer and `some n` the object with identity `n`. -/
abbrev ObjectPointer := Option Nat

/-- The type `DataObjectContainerPointer`, with the same reading as `ObjectPointer`. -/
abbrev DataObjectContainerPointer := Option Nat

/-- What `main` hands to one `ElastixMain` object before calling `Run`
(lines 184-191 and the argument of `Run` on line 217). -/
structure StageInput where
  initialTransform : ObjectPointer
  fixedImageContainer : DataObjectContainerPointer
  movingImageContainer : DataObjectContainerPointer
  fixedMaskContainer : DataObjectContainerPointer
  movingMaskContainer : DataObjectContainerPointer
  elastixLevel : Nat
  argMap : ArgumentMapType
  deriving DecidableEq

/-- What `main` reads back from an `ElastixMain` object: the value returned by
`Run` and the results of the five getters of lines 229-233. -/
structure StageOutput where
  returnCode : Int
  finalTransform : ObjectPointer
  fixedImageContainer : DataObjectContainerPointer
  movingImageContainer : DataObjectContainerPointer
  fixedMaskContainer : DataObjectContainerPointer
  movingMaskContainer : DataObjectContainerPointer
  deriving DecidableEq

/-- The functions `main` calls outside `elastix.cxx`. -/
structure World where
  /-- The call `itksys::SystemTools::FileIsDirectory`. -/
  FileIsDirectory : String → Bool
  /-- The call `elx::xoutSetup`, with the log file name as argument. -/
  xoutSetup : String → Int
  /-- The behaviour of an `ElastixMain` object configured as in the argument:
  the result of `Run` and of the getters called after it. -/
  Run : StageInput → StageOutput

/-- The observable steps of `main`, in program order. -/
inductive Event where
  /-- A line written to `std::cout`. -/
  | cout (msg : String)
  /-- The call `PrintHelp()`. -/
  | PrintHelp
  /-- A message written to `std::cerr`. -/
  | cerr (msg : String)
  /-- The call `elx::xoutSetup( logFileName )`. -/
  | xoutSetup (logFileName : String)
  /-- The call `elastices.push_back( ElastixMainType::New() )`, with the
  vector of stage objects after it. -/
  | push_back (elastices : List (Option Nat))
  /-- The call `elastices[ i ]->Run( argMap )` on an object set up as in
  `inp`. -/
  | Run (inp : StageInput)
  /-- A message written to `xl::xout["error"]`. -/
  | xoutError (msg : String)
  /-- An assignment `elastices[ i ] = 0`, with the vector after it. -/
  | release (i : Nat) (elastices : List (Option Nat))
  /-- The call `ElastixMainType::UnloadComponents()`. -/
  | UnloadComponents
  deriving DecidableEq

/-- The value returned by `main` and the trace of its run. -/
structure MainResult where
  returnValue : Int
  trace : List Event
  deriving DecidableEq

/-! ## `main`: parsing of the command line (lines 68-121) -/

/-- The variables written by the loop over the command line arguments. -/
structure ParseState where
  nrOfParameterFiles : Nat
  argMap : ArgumentMapType
  parameterFileList : List ArgPairType
  outFolderPresent : Bool
  outFolder : String
  /-- The messages written to `std::cerr` so far. -/
  cerr : List Event
  deriving DecidableEq

/-- The initial values of lines 61-65. -/
def ParseState.init : ParseState :=
  { nrOfParameterFiles := 0, argMap := [], parameterFileList := [],
    outFolderPresent := false, outFolder := "", cerr := [] }

/-- The body of the loop of lines 69-118 for one key and value. -/
def parseStep (st : ParseState) (key value : String) : ParseState :=
  if key = "-p" then
    let nrOfParameterFiles := st.nrOfParameterFiles + 1
    let tempPName := "-p(" ++ toString nrOfParameterFiles ++ ")"
    { st with
      nrOfParameterFiles := nrOfParameterFiles
      parameterFileList := st.parameterFileList ++ [(key, value)]
      argMap := mapInsert st.argMap tempPName value }
  else
    let value := if key = "-out" then appendSlash value else value
    let st := if key = "-out" then
      { st with outFolderPresent := true, outFolder := value } else st
    if mapCount st.argMap key = 0 then
      { st with argMap := mapInsert st.argMap key value }
    else
      { st with cerr := st.cerr ++
          [Event.cerr "WARNING!",
           Event.cerr ("Argument " ++ key ++ "is only required once."),
           Event.cerr ("Arguments " ++ key ++ " " ++ value ++ "are ignored")] }

/-- The loop `for ( i = 1; i < argc - 1; i += 2 )` over `argv[1..]`: the
arguments are consumed two at a time and a last argument without a partner is
not read. -/
def parseArgs : List String → ParseState → ParseState
  | key :: value :: rest, st => parseArgs rest (parseStep st key value)
  | _, st => st

/-! ## `main`: the loop over the registrations (lines 178-248) -/

/-- The variables of `main` that the registration loop reads and writes. -/
structure LoopState where
  elastices : List (Option Nat)
  transform : ObjectPointer
  fixedImageContainer : DataObjectContainerPointer
  movingImageContainer : DataObjectContainerPointer
  fixedMaskContainer : DataObjectContainerPointer
  movingMaskContainer : DataObjectContainerPointer
  returndummy : Int
  argMap : ArgumentMapType
  parameterFileList : List ArgPairType
  deriving DecidableEq

/-- The variables of `main` when the registration loop is entered: the
initial values of lines 53-59 and the results of parsing and set-up. -/
def LoopState.init (returndummy : Int) (argMap : ArgumentMapType)
    (parameterFileList : List ArgPairType) : LoopState :=
  { elastices := []
    transform := none
    fixedImageContainer := none
    movingImageContainer := none
    fixedMaskContainer := none
    movingMaskContainer := none
    returndummy := returndummy
    argMap := argMap
    parameterFileList := parameterFileList }

/-- Lines 250-276: what `main` does once the registration loop is left through
its condition. `nrOfParameterFiles` bounds the clean-up loop of lines
261-264. -/
def finishMain (nrOfParameterFiles : Nat) (st : LoopState) : MainResult :=
  let cleared := (List.range nrOfParameterFiles).foldl
    (fun (acc : List (Option Nat) × List Event) i =>
      (acc.1.set i none, acc.2 ++ [Event.release i (acc.1.set i none)]))
    (st.elastices, [])
  { returnValue := st.returndummy
    trace := cleared.2 ++ [Event.UnloadComponents] }

/-- Lines 184-204: the set-up of the stage object of iteration `i`, with the
argument map in which `-p` is replaced by the front of the queue. -/
def stageInput (st : LoopState) (i : Nat) (argPair : ArgPairType) :
    StageInput :=
  let argMap := if mapCount st.argMap "-p" ≠ 0 then mapErase st.argMap "-p"
    else st.argMap
  let argMap := mapInsert argMap argPair.1 argPair.2
  { initialTransform := st.transform
    fixedImageContainer := st.fixedImageContainer
    movingImageContainer := st.movingImageContainer
    fixedMaskContainer := st.fixedMaskContainer
    movingMaskContainer := st.movingMaskContainer
    elastixLevel := i
    argMap := argMap }

/-- Lines 229-246: the variables of `main` after a stage that returned 0;
`elastices` is the vector after the `push_back` of the iteration. -/
def afterStage (elastices : List (Option Nat)) (i : Nat) (inp : StageInput)
    (out : StageOutput) (parameterFileList : List ArgPairType) : LoopState :=
  { elastices := elastices.set i none
    transform := out.finalTransform
    fixedImageContainer := out.fixedImageContainer
    movingImageContainer := out.movingImageContainer
    fixedMaskContainer := out.fixedMaskContainer
    movingMaskContainer := out.movingMaskContainer
    returndummy := out.returnCode
    argMap := inp.argMap
    parameterFileList := parameterFileList }

/-- The loop `for ( i = 0; i < nrOfParameterFiles; i++ )` of lines 178-248
followed by the rest of `main`. The first argument is the number of
iterations still to do, `nrOfParameterFiles - i`. The result is `none` when
`parameterFileList.front()` is called on an empty queue, which the C++
standard leaves undefined. The trace holds the events from iteration `i`
on. -/
def registrationLoop (w : World) (nrOfParameterFiles : Nat) :
    Nat → Nat → LoopState → Option MainResult
  | 0, _, st => some (finishMain nrOfParameterFiles st)
  | todo + 1, i, st =>
    let elastices := st.elastices ++ [some i]
    match st.parameterFileList with
    | [] => none
    | argPair :: parameterFileList =>
      let inp := stageInput st i argPair
      let out := w.Run inp
      if out.returnCode ≠ 0 then
        some { returnValue := out.returnCode
               trace := [Event.push_back elastices, Event.Run inp,
                         Event.xoutError "Errors occured!"] }
      else
        let next := afterStage elastices i inp out parameterFileList
        (registrationLoop w nrOfParameterFiles todo (i + 1) next).map
          (fun r => { r with trace :=
            [Event.push_back elastices, Event.Run inp,
             Event.release i next.elastices] ++ r.trace })

/-! ## `main` -/

/-- The usage hint of lines 12 and 33. -/
def usageHint : String :=
  "Use \"elastix --help\" for information about elastix-usage."

/-- Lines 123-157: the checks on `-p` and `-out` and the set-up of `xout`.
Returns `returndummy` and the events of the checks. -/
def checkSetup (w : World) (st : ParseState) : Int × List Event :=
  let returndummy : Int := 0
  let r1 : Int × List Event :=
    if st.nrOfParameterFiles = 0 then
      (orInt returndummy (-1),
        [Event.cerr "ERROR: No CommandLine option \"-p\" given!"])
    else (returndummy, [])
  if st.outFolderPresent then
    let outFolderExists := w.FileIsDirectory st.outFolder
    if ¬ outFolderExists then
      (orInt r1.1 (-2), r1.2 ++
        [Event.cerr "ERROR: the output directory does not exist.",
         Event.cerr "You are responsible for creating it."])
    else
      let logFileName := st.outFolder ++ "elastix.log"
      let returndummy2 := w.xoutSetup logFileName
      (orInt r1.1 returndummy2, r1.2 ++ [Event.xoutSetup logFileName] ++
        (if returndummy2 ≠ 0 then [Event.cerr "ERROR while setting up xout."]
         else []))
  else
    (-2, r1.2 ++ [Event.cerr "ERROR: No CommandLine option \"-out\" given!"])

/-- The function `main` of `elastix.cxx`, called with `argv[0] = argv0` and
`argv[1..] = args`, so `argc = args.length + 1`. Output to `elxout` and the
timers are left out, and so is the value of `__ELASTIX_VERSION` in the
version line. -/
def main (w : World) (argv0 : String) (args : List String) :
    Option MainResult :=
  match args with
  | [] => some { returnValue := 0, trace := [Event.cout usageHint] }
  | [argument] =>
    if argument = "-help" ∨ argument = "--help" then
      some { returnValue := 0, trace := [Event.PrintHelp] }
    else if argument = "--version" then
      some { returnValue := 0, trace := [Event.cout "elastix version: "] }
    else
      some { returnValue := 0, trace := [Event.cout usageHint] }
  | _ =>
    let st := parseArgs args ParseState.init
    let argMap := mapInsert st.argMap "-argv0" argv0
    let chk := checkSetup w st
    if chk.1 ≠ 0 then
      some { returnValue := chk.1, trace := st.cerr ++ chk.2 }
    else
      (registrationLoop w st.nrOfParameterFiles st.nrOfParameterFiles 0
        (LoopState.init chk.1 argMap st.parameterFileList)).map
        (fun r => { r with trace := st.cerr ++ chk.2 ++ r.trace })

/-! ## Reading the command line and the trace -/

/-- The key/value pairs of the command line, in order. -/
def argPairs : List String → List (String × String)
  | key :: value :: rest => (key, value) :: argPairs rest
  | _ => []

/-- The values given for a key on the command line, in order. -/
def keyValues (args : List String) (key : String) : List String :=
  ((argPairs args).filter (fun kv => kv.1 = key)).map (fun kv => kv.2)

/-- The inputs of the calls of `Run` in a trace, in order. -/
def runInputs : List Event → List StageInput
  | [] => []
  | Event.Run inp :: es => inp :: runInputs es
  | _ :: es => runInputs es

/-- The log file names of the calls of `xoutSetup` in a trace. -/
def xoutSetups : List Event → List String
  | [] => []
  | Event.xoutSetup name :: es => name :: xoutSetups es
  | _ :: es => xoutSetups es

/-- The number of stage objects created in a trace. -/
def pushBacks : List Event → Nat
  | [] => 0
  | Event.push_back _ :: es => pushBacks es + 1
  | _ :: es => pushBacks es

/-- The command line passes the set-up of `main`: there is a `-p`, the output
folder recorded for `-out` is an existing directory and `xoutSetup` returns 0
for the log file in it. -/
def PassesSetup (w : World) (args : List String) : Prop :=
  1 ≤ (keyValues args "-p").length ∧
  ∃ v, (keyValues args "-out").getLast? = some v ∧
    w.FileIsDirectory (appendSlash v) = true ∧
    w.xoutSetup (appendSlash v ++ "elastix.log") = 0

/-! ## `MetricBase` (elxMetricBase.hxx) -/

/-- The type `MeasureType`, the value of a metric. -/
abbrev MeasureType := ℚ

/-- The type `ParametersType`, a vector of transform parameters. -/
abbrev ParametersType := List ℚ

/-- An image sampler object, as far as `MetricBase` reads and writes it. -/
structure ImageSampler where
  /-- The object is an `ImageFullSamplerType`: the `dynamic_cast` of line 186
  succeeds. -/
  isFullSampler : Bool
  /-- The result of `GetInput()`. -/
  input : Option Nat
  /-- The result of `GetMask()`. -/
  mask : Option Nat
  /-- The result of `GetInputImageRegion()`. -/
  inputImageRegion : List Nat
  /-- The number of calls of `SelectNewSamplesOnUpdate()` on the object. -/
  selectNewSamplesOnUpdate : Nat
  deriving DecidableEq

/-- The observable steps of the methods of `MetricBase`, in program order. -/
inductive MetricEvent where
  /-- The call `xl::xout["iteration"].RemoveTargetCell`. -/
  | RemoveTargetCell (column : String)
  /-- The call `xl::xout["iteration"].AddTargetCell`. -/
  | AddTargetCell (column : String)
  /-- The call `SetRequiredRatioOfValidSamples` on the advanced metric. -/
  | SetRequiredRatioOfValidSamples (ratio : ℚ)
  /-- A value written to a column of `xl::xout["iteration"]`. -/
  | xoutIteration (column : String) (value : MeasureType)
  /-- The call `SelectNewSamplesOnUpdate()` on a sampler. -/
  | SelectNewSamplesOnUpdate (sampler : Nat)
  /-- A message written to `xl::xout["warning"]`. -/
  | xoutWarning (msg : String)
  /-- The call `GetValue( parameters )` on the metric, with the sampler
  installed on the metric at that moment. -/
  | GetValue (imageSampler : Option Nat) (parameters : ParametersType)
  /-- The call `SetImageSampler( sampler )` on the advanced metric. -/
  | SetImageSampler (sampler : Option Nat)
  deriving DecidableEq

/-- A metric component as seen from `MetricBase`. Samplers live in `heap` and
are referred to by address; `none` is the null pointer. -/
structure MetricBase where
  /-- The metric is an `AdvancedMetricType`: `dynamic_cast< AdvancedMetricType * >( this )`
  is not 0. -/
  isAdvancedMetric : Bool
  /-- The result of `GetUseImageSampler()` of the advanced metric. -/
  useImageSampler : Bool
  /-- The result of `GetImageSampler()` of the advanced metric. -/
  imageSampler : Option Nat
  /-- The value last given to `SetRequiredRatioOfValidSamples`. -/
  requiredRatioOfValidSamples : ℚ
  m_ShowExactMetricValue : Bool
  m_ExactMetricSampler : Option Nat
  /-- The result of `GetComponentLabel()`. -/
  componentLabel : String
  /-- The sampler objects, by address. -/
  heap : Nat → ImageSampler
  /-- The address given to the next object created with `New()`. -/
  nextFree : Nat
  /-- The events so far. -/
  log : List MetricEvent

/-- What the methods of `MetricBase` call outside elxMetricBase.hxx. -/
structure MetricEnv where
  /-- The metric's own `GetValue( parameters )`, a `const` method which
  returns a value or throws; it sees the metric as it is at the call and does
  not change the members kept in `MetricBase`. -/
  GetValue : MetricBase → ParametersType → Except String MeasureType
  /-- The entry of the configuration that `ReadParameter` finds for a boolean
  parameter, given name, component label, entry number and default entry
  number; `none` when the parameter file has no such entry. -/
  boolParameter : String → String → Nat → Nat → Option Bool
  /-- The same for a `float` parameter. -/
  floatParameter : String → String → Nat → Nat → Option ℚ
  /-- The result of `m_Registration->GetAsITKBaseType()->GetCurrentLevel()`. -/
  currentLevel : Nat
  /-- The result of `GetCurrentPosition()` of the optimizer. -/
  currentPosition : ParametersType

/-- Modelled from the spec: `Configuration::ReadParameter`, which is not part
of the sources at hand. The variable keeps the value it has (the caller's
default) when the configuration has no entry, and gets the entry's value
otherwise. -/
def ReadParameter {α : Type} (param : α) (entry : Option α) : α :=
  match entry with
  | some v => v
  | none => param

/-- Append an event to the log of the metric. -/
def MetricBase.emit (self : MetricBase) (e : MetricEvent) : MetricBase :=
  { self with log := self.log ++ [e] }

/-- The method `MetricBase::GetAdvancedMetricUseImageSampler` (lines 224-241). -/
def GetAdvancedMetricUseImageSampler (self : MetricBase) : Bool :=
  if self.isAdvancedMetric = false then false
  else self.useImageSampler

/-- The method `MetricBase::SetAdvancedMetricImageSampler` (lines 248-271). -/
def SetAdvancedMetricImageSampler (self : MetricBase) (sampler : Option Nat) :
    MetricBase :=
  if self.isAdvancedMetric = false then self
  else if self.useImageSampler = false then self
  else ({ self with imageSampler := sampler }).emit
    (MetricEvent.SetImageSampler sampler)

/-- The method `MetricBase::GetAdvancedMetricImageSampler` (lines 278-302). -/
def GetAdvancedMetricImageSampler (self : MetricBase) : Option Nat :=
  if self.isAdvancedMetric = false then none
  else if self.useImageSampler = false then none
  else self.imageSampler

/-- The method `MetricBase::BeforeEachResolutionBase` (lines 43-104). -/
def BeforeEachResolutionBase (env : MetricEnv) (self : MetricBase) :
    MetricBase :=
  let level := env.currentLevel
  let exactMetricColumn := "Exact" ++ self.componentLabel
  let self := self.emit (MetricEvent.RemoveTargetCell exactMetricColumn)
  let showExactMetricValue := ReadParameter false
    (env.boolParameter "ShowExactMetricValue" self.componentLabel level 0)
  let self := { self with m_ShowExactMetricValue := showExactMetricValue }
  let self := if showExactMetricValue then
    self.emit (MetricEvent.AddTargetCell exactMetricColumn) else self
  if self.isAdvancedMetric then
    let checkNumberOfSamples := ReadParameter true
      (env.boolParameter "CheckNumberOfSamples" self.componentLabel level 0)
    let ratio := ReadParameter (1 / 4 : ℚ)
      (env.floatParameter "RequiredRatioOfValidSamples" self.componentLabel
        level 0)
    if ¬ checkNumberOfSamples then
      ({ self with requiredRatioOfValidSamples := 0 }).emit
        (MetricEvent.SetRequiredRatioOfValidSamples 0)
    else
      ({ self with requiredRatioOfValidSamples := ratio }).emit
        (MetricEvent.SetRequiredRatioOfValidSamples ratio)
  else self

/-- The method `MetricBase::SelectNewSamples` (lines 136-159). -/
def SelectNewSamples (self : MetricBase) : MetricBase :=
  match GetAdvancedMetricImageSampler self with
  | some sampler =>
    let object := self.heap sampler
    let object := { object with
      selectNewSamplesOnUpdate := object.selectNewSamplesOnUpdate + 1 }
    ({ self with heap := Function.update self.heap sampler object }).emit
      (MetricEvent.SelectNewSamplesOnUpdate sampler)
  | none =>
    self.emit (MetricEvent.xoutWarning
      ("WARNING: The NewSamplesEveryIteration option was set to \"true\", but "
        ++ self.componentLabel ++ " does not use a sampler."))

/-- Lines 196-199 of `GetExactValue`: the address of the exact metric sampler,
which is created first when `m_ExactMetricSampler` is null. -/
def exactMetricSampler (self : MetricBase) : Nat × MetricBase :=
  match self.m_ExactMetricSampler with
  | some exact => (exact, self)
  | none =>
    (self.nextFree,
      { self with
        m_ExactMetricSampler := some self.nextFree
        heap := (Function.update self.heap self.nextFree
          { isFullSampler := true, input := none, mask := none,
            inputImageRegion := [], selectNewSamplesOnUpdate := 0 })
        nextFree := self.nextFree + 1 })

/-- Lines 201-205 of `GetExactValue`: copy input, mask and region from the
sampler at `current` to the sampler at `exact`, one after the other. -/
def copySettings (self : MetricBase) (exact current : Nat) : MetricBase :=
  let object := self.heap exact
  let heap := Function.update self.heap exact
    { object with input := (self.heap current).input }
  let object := heap exact
  let heap := Function.update heap exact
    { object with mask := (heap current).mask }
  let object := heap exact
  let heap := Function.update heap exact
    { object with inputImageRegion := (heap current).inputImageRegion }
  { self with heap := heap }

/-- The method `MetricBase::GetExactValue` (lines 166-217). The first component is the
value returned, or the exception that leaves the method; the second is the
metric when the method is left. -/
def GetExactValue (env : MetricEnv) (self : MetricBase)
    (parameters : ParametersType) : Except String MeasureType × MetricBase :=
  match GetAdvancedMetricImageSampler self with
  | none => (Except.ok 0, self)
  | some currentSampler =>
    if (self.heap currentSampler).isFullSampler then
      (env.GetValue self parameters,
        self.emit (MetricEvent.GetValue self.imageSampler parameters))
    else
      let (exact, self) := exactMetricSampler self
      let self := copySettings self exact currentSampler
      let self := SetAdvancedMetricImageSampler self (some exact)
      match env.GetValue self parameters with
      | Except.error e =>
        (Except.error e,
          self.emit (MetricEvent.GetValue self.imageSampler parameters))
      | Except.ok exactValue =>
        let self := self.emit
          (MetricEvent.GetValue self.imageSampler parameters)
        let self := SetAdvancedMetricImageSampler self (some currentSampler)
        (Except.ok exactValue, self)

/-- The method `MetricBase::AfterEachIterationBase` (lines 111-129). The first component
is the exception that leaves the method, if any. -/
def AfterEachIterationBase (env : MetricEnv) (self : MetricBase) :
    Option String × MetricBase :=
  let exactMetricColumn := "Exact" ++ self.componentLabel
  if self.m_ShowExactMetricValue then
    match GetExactValue env self env.currentPosition with
    | (Except.error e, self) => (some e, self)
    | (Except.ok value, self) =>
      (none, self.emit (MetricEvent.xoutIteration exactMetricColumn value))
  else (none, self)

/-- The number of metric evaluations in a log. -/
def evaluations : List MetricEvent → Nat
  | [] => 0
  | MetricEvent.GetValue _ _ :: es => evaluations es + 1
  | _ :: es => evaluations es

/-- The number of calls of `SetImageSampler` in a log. -/
def samplerInstallations : List MetricEvent → Nat
  | [] => 0
  | MetricEvent.SetImageSampler _ :: es => samplerInstallations es + 1
  | _ :: es => samplerInstallations es

/-! ## Definitions used in the statements and proofs -/

/-- All events of the list are messages on `std::cerr`. -/
def onlyCerr : List Event → Bool
  | [] => true
  | Event.cerr _ :: es => onlyCerr es
  | _ :: _ => false

/-- The inputs of the calls of `Run` that the registration loop makes from
iteration `i` on, read off the loop: one stage per queued parameter file, up
to and including the first stage that returns a non-zero code. -/
def runsOf (w : World) : List ArgPairType → Nat → LoopState → List StageInput
  | [], _, _ => []
  | argPair :: rest, i, st =>
    let inp := stageInput st i argPair
    let out := w.Run inp
    inp :: (if out.returnCode ≠ 0 then []
      else runsOf w rest (i + 1)
        (afterStage (st.elastices ++ [some i]) i inp out rest))

/-- The state in which `main` enters the registration loop after a successful
set-up. -/
def entryState (argv0 : String) (args : List String) : LoopState :=
  LoopState.init 0
    (mapInsert (parseArgs args ParseState.init).argMap "-argv0" argv0)
    ((keyValues args "-p").map (fun v => (("-p", v) : ArgPairType)))

/-! ## Example inputs -/

/-- A world in which `out/` is the only directory, `xoutSetup` succeeds and
the stage of level 1 fails with code 7. -/
def exampleWorld : World where
  FileIsDirectory := fun s => decide (s = "out/")
  xoutSetup := fun _ => 0
  Run := fun inp =>
    { returnCode := if inp.elastixLevel = 1 then 7 else 0
      finalTransform := some (inp.elastixLevel + 10)
      fixedImageContainer := some 1
      movingImageContainer := some 2
      fixedMaskContainer := some 3
      movingMaskContainer := some 4 }

/-- A command line with three parameter files. -/
def exampleArgs : List String :=
  ["-p", "a.txt", "-out", "out", "-p", "b.txt", "-p", "c.txt"]

/-- An advanced metric with a sampler that is not a full sampler, at address
0, and no exact metric sampler yet. -/
def exampleMetric : MetricBase where
  isAdvancedMetric := true
  useImageSampler := true
  imageSampler := some 0
  requiredRatioOfValidSamples := 1 / 4
  m_ShowExactMetricValue := true
  m_ExactMetricSampler := none
  componentLabel := "Metric0"
  heap := fun _ =>
    { isFullSampler := false, input := some 1, mask := none,
      inputImageRegion := [0, 0, 64, 64], selectNewSamplesOnUpdate := 0 }
  nextFree := 1
  log := []

/-- An environment in which every metric evaluation throws and the checking
of the number of samples is switched off. -/
def failingEnv : MetricEnv where
  GetValue := fun _ _ => Except.error "Too many samples map outside moving image buffer"
  boolParameter := fun name _ _ _ =>
    if name = "CheckNumberOfSamples" then some false else none
  floatParameter := fun name _ _ _ =>
    if name = "RequiredRatioOfValidSamples" then some (1 / 2) else none
  currentLevel := 0
  currentPosition := []

/-- An environment in which every metric evaluation returns 3. -/
def exampleEnv : MetricEnv where
  GetValue := fun _ _ => Except.ok 3
  boolParameter := fun _ _ _ _ => none
  floatParameter := fun _ _ _ _ => none
  currentLevel := 0
  currentPosition := []

/-- An advanced metric whose sampler, at address 0, is a full sampler. -/
def fullSamplerMetric : MetricBase where
  isAdvancedMetric := true
  useImageSampler := true
  imageSampler := some 0
  requiredRatioOfValidSamples := 1 / 4
  m_ShowExactMetricValue := true
  m_ExactMetricSampler := none
  componentLabel := "Metric0"
  heap := fun _ =>
    { isFullSampler := true, input := some 1, mask := none,
      inputImageRegion := [0, 0, 64, 64], selectNewSamplesOnUpdate := 0 }
  nextFree := 1
  log := []

/-! ## Further example inputs -/

/-- A metric that is not an advanced metric. -/
def plainMetric : MetricBase where
  isAdvancedMetric := false
  useImageSampler := false
  imageSampler := none
  requiredRatioOfValidSamples := 0
  m_ShowExactMetricValue := true
  m_ExactMetricSampler := none
  componentLabel := "Metric0"
  heap := fun _ =>
    { isFullSampler := false, input := none, mask := none,
      inputImageRegion := [], selectNewSamplesOnUpdate := 0 }
  nextFree := 0
  log := []

/-- An environment whose configuration asks for the exact metric value, checks
the number of samples and requires a ratio of valid samples of 3/2. -/
def ratioEnv : MetricEnv where
  GetValue := fun _ _ => Except.ok 3
  boolParameter := fun name _ _ _ =>
    if name = "ShowExactMetricValue" then some true
    else if name = "CheckNumberOfSamples" then some true else none
  floatParameter := fun name _ _ _ =>
    if name = "RequiredRatioOfValidSamples" then some (3 / 2) else none
  currentLevel := 0
  currentPosition := [1, 2]

/-- The argument map of `main` after parsing, that is after line 121, where
the entry for `-argv0` is inserted. -/
def argMapAfterParsing (argv0 : String) (args : List String) :
    ArgumentMapType :=
  mapInsert (parseArgs args ParseState.init).argMap "-argv0" argv0


/-! ## The default pyramid schedule -/

/-- Modelled from the spec: one step of the halving rule of the default
schedule, "each subsequent row is `max(1, previousRow/2)`", column by column
with integer division. The code that builds the default schedule (the
superclass `MultiResolutionPyramidImageFilter`) is not part of the sources at
hand; the header of `MultiResolutionGaussianSmoothingPyramidImageFilter` only
describes it (lines 72-99). -/
def halveRow (row : List Nat) : List Nat :=
  row.map (fun factor => max 1 (factor / 2))

/-- Modelled from the spec: the rows of a default schedule, from a given row
on: the row itself, then its halvings, `levels` rows in all. -/
def scheduleRows : Nat → List Nat → List (List Nat)
  | 0, _ => []
  | levels + 1, row => row :: scheduleRows levels (halveRow row)

/-- Modelled from the spec: `BuildDefault(numberOfLevels, dimension,
startingFactors?)` of the Pyramid Schedule Builder, whose code (methods
`SetNumberOfLevels` and `SetStartingShrinkFactors` of the superclass) is not
part of the sources at hand. Row 0 holds the starting factors, or
2^(numberOfLevels-1) in every column when none are given; every later row
halves the row before it, floored at 1. -/
def BuildDefault (numberOfLevels dimension : Nat)
    (startingFactors : Option (List Nat)) : List (List Nat) :=
  scheduleRows numberOfLevels
    (match startingFactors with
     | some factors => factors
     | none => List.replicate dimension (2 ^ (numberOfLevels - 1)))

/-! ## The vector of stage objects and the unloading of the components -/

/-- The vector `elastices` after an event, given the vector before it. -/
def stepElastices (elastices : List (Option Nat)) : Event → List (Option Nat)
  | Event.push_back after => after
  | Event.release _ after => after
  | _ => elastices

/-- The vector `elastices` after the events of a trace, given the vector
before them. -/
def elasticesAfter : List (Option Nat) → List Event → List (Option Nat)
  | elastices, [] => elastices
  | elastices, e :: es => elasticesAfter (stepElastices elastices e) es

/-- The vector `elastices` right before each event of the trace that
satisfies `p`, given the vector before the trace. -/
def elasticesBefore (p : Event → Bool) :
    List (Option Nat) → List Event → List (List (Option Nat))
  | _, [] => []
  | elastices, e :: es =>
    (if p e then [elastices] else []) ++
      elasticesBefore p (stepElastices elastices e) es

/-- The number of entries of the vector that are not null. -/
def alive (elastices : List (Option Nat)) : Nat :=
  (elastices.filter (fun entry => entry.isSome)).length

/-- The event is a `push_back` of a new stage object. -/
def isPushBack : Event → Bool
  | Event.push_back _ => true
  | _ => false

/-- The event is the call of `UnloadComponents`. -/
def isUnload : Event → Bool
  | Event.UnloadComponents => true
  | _ => false

/-- The number of calls of `UnloadComponents` in a trace. -/
def unloads : List Event → Nat
  | [] => 0
  | Event.UnloadComponents :: es => unloads es + 1
  | _ :: es => unloads es

/-- The stage objects released in a trace (the indices `i` of the assignments
`elastices[ i ] = 0`), in order. -/
def releases : List Event → List Nat
  | [] => []
  | Event.release i _ :: es => i :: releases es
  | _ :: es => releases es

/-- The discipline of the vector along a trace: at every point at most one
entry is not null, and all entries are null right before a `push_back` and
right before `UnloadComponents`. -/
def oneStageAlive : List (Option Nat) → List Event → Prop
  | elastices, [] => alive elastices ≤ 1
  | elastices, e :: es =>
    alive elastices ≤ 1 ∧
    ((isPushBack e = true ∨ isUnload e = true) → alive elastices = 0) ∧
    oneStageAlive (stepElastices elastices e) es

/-- The event is one of parsing and set-up: a message on `std::cerr` or the
call of `xoutSetup`. -/
def isSetupEvent : Event → Bool
  | Event.cerr _ => true
  | Event.xoutSetup _ => true
  | _ => false

/-- A world in which `out/` is the only directory, `xoutSetup` succeeds and
every stage returns 0. -/
def successWorld : World where
  FileIsDirectory := fun s => decide (s = "out/")
  xoutSetup := fun _ => 0
  Run := fun inp =>
    { returnCode := 0
      finalTransform := some (inp.elastixLevel + 10)
      fixedImageContainer := some 1
      movingImageContainer := some 2
      fixedMaskContainer := some 3
      movingMaskContainer := some 4 }


/-! ## Calls on a metric between two set-ups -/

/-- A call on the metric that `MetricBase` offers during the iterations of a
resolution. -/
inductive MetricCall where
  /-- A call of `AfterEachIterationBase()`, in the given environment. -/
  | AfterEachIterationBase (env : MetricEnv)
  /-- A call of `SelectNewSamples()`. -/
  | SelectNewSamples
  /-- A call of `GetExactValue( parameters )`, in the given environment. -/
  | GetExactValue (env : MetricEnv) (parameters : ParametersType)

/-- The metric after one call. -/
def MetricCall.run : MetricCall → MetricBase → MetricBase
  | MetricCall.AfterEachIterationBase env, self =>
    (elastix.AfterEachIterationBase env self).2
  | MetricCall.SelectNewSamples, self => elastix.SelectNewSamples self
  | MetricCall.GetExactValue env parameters, self =>
    (elastix.GetExactValue env self parameters).2

/-- The metric after a sequence of calls, made one after the other. -/
def runCalls : List MetricCall → MetricBase → MetricBase
  | [], self => self
  | call :: calls, self => runCalls calls (call.run self)

/-- The parameter vectors of the metric evaluations in a log, in order. -/
def evaluationPoints : List MetricEvent → List ParametersType
  | [] => []
  | MetricEvent.GetValue _ parameters :: es => parameters :: evaluationPoints es
  | _ :: es => evaluationPoints es


/-! ## Lemmas on `int` arithmetic -/

theorem bitsOfInt_lt (a : Int) : bitsOfInt a < 2 ^ 32 := by
  unfold bitsOfInt
  have h1 : 0 ≤ a % 2 ^ 32 := Int.emod_nonneg _ (by norm_num)
  have h2 : a % 2 ^ 32 < 2 ^ 32 := Int.emod_lt_of_pos _ (by norm_num)
  omega

theorem allOnes_or (y : Nat) (hy : y < 2 ^ 32) :
    (2 ^ 32 - 1) ||| y = 2 ^ 32 - 1 := by
  apply Nat.eq_of_testBit_eq
  intro i
  rw [Nat.testBit_or, Nat.testBit_two_pow_sub_one]
  by_cases hi : i < 32
  · simp [hi]
  · have hle : 2 ^ 32 ≤ 2 ^ i := Nat.pow_le_pow_right (by norm_num) (by omega)
    have : y.testBit i = false := Nat.testBit_lt_two_pow (by omega)
    simp [hi, this]

theorem orInt_neg_one (x : Int) : orInt (-1) x = -1 := by
  have h1 : bitsOfInt (-1) = 2 ^ 32 - 1 := by decide
  unfold orInt
  rw [h1, allOnes_or _ (bitsOfInt_lt x)]
  decide

theorem orInt_zero_zero : orInt 0 0 = 0 := by decide

theorem orInt_zero_neg_one : orInt 0 (-1) = -1 := by decide

theorem orInt_zero_neg_two : orInt 0 (-2) = -2 := by decide

/-! ## Lemmas on the parsing of the command line -/

/-- Two-at-a-time induction on the argument list. -/
theorem args_induction {P : List String → Prop} (hnil : P [])
    (hone : ∀ a, P [a]) (hstep : ∀ k v rest, P rest → P (k :: v :: rest)) :
    ∀ args, P args := by
  intro args
  have h : ∀ n, ∀ l : List String, l.length ≤ n → P l := by
    intro n
    induction n with
    | zero =>
      intro l hl
      cases l with
      | nil => exact hnil
      | cons a t => simp at hl
    | succ n ih =>
      intro l hl
      match l, hl with
      | [], _ => exact hnil
      | [a], _ => exact hone a
      | k :: v :: rest, hl =>
        apply hstep
        apply ih
        simp at hl
        omega
  exact h args.length args (Nat.le_refl _)

theorem keyValues_cons (k v : String) (rest : List String) (key : String) :
    keyValues (k :: v :: rest) key =
      (if k = key then [v] else []) ++ keyValues rest key := by
  unfold keyValues
  by_cases h : k = key <;> simp [argPairs, List.filter_cons, h]

theorem onlyCerr_append (xs ys : List Event) :
    onlyCerr (xs ++ ys) = (onlyCerr xs && onlyCerr ys) := by
  induction xs with
  | nil => simp [onlyCerr]
  | cons e es ih => cases e <;> simp [onlyCerr, ih]

theorem runInputs_append (xs ys : List Event) :
    runInputs (xs ++ ys) = runInputs xs ++ runInputs ys := by
  induction xs with
  | nil => simp [runInputs]
  | cons e es ih => cases e <;> simp [runInputs, ih]

theorem xoutSetups_append (xs ys : List Event) :
    xoutSetups (xs ++ ys) = xoutSetups xs ++ xoutSetups ys := by
  induction xs with
  | nil => simp [xoutSetups]
  | cons e es ih => cases e <;> simp [xoutSetups, ih]

theorem pushBacks_append (xs ys : List Event) :
    pushBacks (xs ++ ys) = pushBacks xs + pushBacks ys := by
  induction xs with
  | nil => simp [pushBacks]
  | cons e es ih => cases e <;> simp [pushBacks, ih]; omega

theorem onlyCerr_quiet (xs : List Event) (h : onlyCerr xs = true) :
    runInputs xs = [] ∧ xoutSetups xs = [] ∧ pushBacks xs = 0 := by
  induction xs with
  | nil => simp [runInputs, xoutSetups, pushBacks]
  | cons e es ih =>
    cases e <;> simp [onlyCerr] at h
    simpa [runInputs, xoutSetups, pushBacks] using ih h

theorem parseStep_nr (st : ParseState) (k v : String) :
    (parseStep st k v).nrOfParameterFiles =
      st.nrOfParameterFiles + (if k = "-p" then 1 else 0) := by
  unfold parseStep
  by_cases h : k = "-p"
  · simp [h]
  · simp only [h, if_false]
    split <;> split <;> simp

theorem parseStep_queue (st : ParseState) (k v : String) :
    (parseStep st k v).parameterFileList =
      st.parameterFileList ++ (if k = "-p" then [("-p", v)] else []) := by
  unfold parseStep
  by_cases h : k = "-p"
  · simp [h]
  · simp only [h, if_false]
    split <;> split <;> simp

theorem parseStep_outFolderPresent (st : ParseState) (k v : String) :
    (parseStep st k v).outFolderPresent =
      (st.outFolderPresent || decide (k = "-out")) := by
  unfold parseStep
  by_cases h : k = "-p"
  · subst h; simp
  · simp only [h, if_false]
    by_cases ho : k = "-out" <;> simp [ho] <;> split <;> simp

theorem parseStep_outFolder (st : ParseState) (k v : String) :
    (parseStep st k v).outFolder =
      (if k = "-out" then appendSlash v else st.outFolder) := by
  unfold parseStep
  by_cases h : k = "-p"
  · subst h; simp
  · simp only [h, if_false]
    by_cases ho : k = "-out" <;> simp [ho] <;> split <;> simp

theorem parseStep_cerr (st : ParseState) (k v : String)
    (h : onlyCerr st.cerr = true) : onlyCerr (parseStep st k v).cerr = true := by
  unfold parseStep
  by_cases hp : k = "-p"
  · simp [hp, h]
  · simp only [hp, if_false]
    by_cases ho : k = "-out" <;> simp [ho] <;> split <;>
      simp [h, onlyCerr_append, onlyCerr]

theorem parseArgs_nr (args : List String) : ∀ st : ParseState,
    (parseArgs args st).nrOfParameterFiles =
      st.nrOfParameterFiles + (keyValues args "-p").length := by
  induction args using args_induction with
  | hnil => intro st; simp [parseArgs, keyValues, argPairs]
  | hone a => intro st; simp [parseArgs, keyValues, argPairs]
  | hstep k v rest ih =>
    intro st
    rw [parseArgs, ih, parseStep_nr, keyValues_cons]
    by_cases h : k = "-p" <;> simp [h]; omega

theorem parseArgs_queue (args : List String) : ∀ st : ParseState,
    (parseArgs args st).parameterFileList =
      st.parameterFileList ++
        (keyValues args "-p").map (fun v => (("-p", v) : ArgPairType)) := by
  induction args using args_induction with
  | hnil => intro st; simp [parseArgs, keyValues, argPairs]
  | hone a => intro st; simp [parseArgs, keyValues, argPairs]
  | hstep k v rest ih =>
    intro st
    rw [parseArgs, ih, parseStep_queue, keyValues_cons]
    by_cases h : k = "-p" <;> simp [h]

theorem parseArgs_outFolderPresent (args : List String) : ∀ st : ParseState,
    (parseArgs args st).outFolderPresent =
      (st.outFolderPresent || !(keyValues args "-out").isEmpty) := by
  induction args using args_induction with
  | hnil => intro st; simp [parseArgs, keyValues, argPairs]
  | hone a => intro st; simp [parseArgs, keyValues, argPairs]
  | hstep k v rest ih =>
    intro st
    rw [parseArgs, ih, parseStep_outFolderPresent, keyValues_cons]
    by_cases h : k = "-out" <;> simp [h]

theorem parseArgs_outFolder (args : List String) : ∀ st : ParseState,
    (parseArgs args st).outFolder =
      (keyValues args "-out").foldl (fun _ v => appendSlash v) st.outFolder := by
  induction args using args_induction with
  | hnil => intro st; simp [parseArgs, keyValues, argPairs]
  | hone a => intro st; simp [parseArgs, keyValues, argPairs]
  | hstep k v rest ih =>
    intro st
    rw [parseArgs, ih, parseStep_outFolder, keyValues_cons]
    by_cases h : k = "-out" <;> simp [h]

theorem parseArgs_cerr (args : List String) : ∀ st : ParseState,
    onlyCerr st.cerr = true → onlyCerr (parseArgs args st).cerr = true := by
  induction args using args_induction with
  | hnil => intro st h; simpa [parseArgs] using h
  | hone a => intro st h; simpa [parseArgs] using h
  | hstep k v rest ih =>
    intro st h
    rw [parseArgs]
    exact ih _ (parseStep_cerr st k v h)

theorem foldl_last (init v : String) (vs : List String)
    (h : vs.getLast? = some v) :
    vs.foldl (fun _ x => appendSlash x) init = appendSlash v := by
  obtain ⟨ys, rfl⟩ := List.getLast?_eq_some_iff.mp h
  simp [List.foldl_append]

/-! ## Lemmas on the registration loop -/

theorem finishMain_quiet (n : Nat) (st : LoopState) :
    runInputs (finishMain n st).trace = [] ∧
    xoutSetups (finishMain n st).trace = [] ∧
    pushBacks (finishMain n st).trace = 0 := by
  have key : ∀ (l : List Nat) (acc : List (Option Nat) × List Event),
      (runInputs acc.2 = [] ∧ xoutSetups acc.2 = [] ∧ pushBacks acc.2 = 0) →
      (runInputs (l.foldl (fun (acc : List (Option Nat) × List Event) i =>
          (acc.1.set i none, acc.2 ++ [Event.release i (acc.1.set i none)]))
          acc).2 = [] ∧
       xoutSetups (l.foldl (fun (acc : List (Option Nat) × List Event) i =>
          (acc.1.set i none, acc.2 ++ [Event.release i (acc.1.set i none)]))
          acc).2 = [] ∧
       pushBacks (l.foldl (fun (acc : List (Option Nat) × List Event) i =>
          (acc.1.set i none, acc.2 ++ [Event.release i (acc.1.set i none)]))
          acc).2 = 0) := by
    intro l
    induction l with
    | nil => intro acc h; simpa using h
    | cons a l ih =>
      intro acc h
      rw [List.foldl_cons]
      apply ih
      obtain ⟨h1, h2, h3⟩ := h
      simp [runInputs_append, xoutSetups_append, pushBacks_append, h1, h2, h3,
        runInputs, xoutSetups, pushBacks]
  have h := key (List.range n) (st.elastices, [])
    (by simp [runInputs, xoutSetups, pushBacks])
  obtain ⟨h1, h2, h3⟩ := h
  simp only [finishMain]
  simp [runInputs_append, xoutSetups_append, pushBacks_append, h1, h2, h3,
    runInputs, xoutSetups, pushBacks]

/-- The registration loop returns, and its calls of `Run` and its return value
are those read off by `runsOf`. -/
theorem registrationLoop_runs (w : World) (n : Nat) :
    ∀ (todo i : Nat) (st : LoopState), st.parameterFileList.length = todo →
      ∃ r, registrationLoop w n todo i st = some r ∧
        runInputs r.trace = runsOf w st.parameterFileList i st ∧
        r.returnValue = (runsOf w st.parameterFileList i st).foldl
          (fun _ inp => (w.Run inp).returnCode) st.returndummy ∧
        pushBacks r.trace = (runsOf w st.parameterFileList i st).length ∧
        xoutSetups r.trace = [] := by
  intro todo
  induction todo with
  | zero =>
    intro i st hlen
    have hq : st.parameterFileList = [] := List.length_eq_zero.mp hlen
    obtain ⟨h1, h2, h3⟩ := finishMain_quiet n st
    refine ⟨finishMain n st, rfl, ?_, ?_, ?_, h2⟩
    · rw [h1, hq]; rfl
    · rw [hq]; rfl
    · rw [h3, hq]; rfl
  | succ todo ih =>
    intro i st hlen
    match hq : st.parameterFileList, hlen with
    | argPair :: rest, hlen =>
      simp only [List.length_cons, Nat.add_right_cancel_iff] at hlen
      by_cases hc : (w.Run (stageInput st i argPair)).returnCode = 0
      · obtain ⟨r, hr, hruns, hret, hpb, hxs⟩ := ih (i + 1)
          (afterStage (st.elastices ++ [some i]) i (stageInput st i argPair)
            (w.Run (stageInput st i argPair)) rest) hlen
        refine ⟨{ r with trace :=
            [Event.push_back (st.elastices ++ [some i]),
             Event.Run (stageInput st i argPair),
             Event.release i (afterStage (st.elastices ++ [some i]) i
               (stageInput st i argPair) (w.Run (stageInput st i argPair))
               rest).elastices] ++ r.trace }, ?_, ?_, ?_, ?_, ?_⟩
        · simp only [registrationLoop, hq, hc, ne_eq, not_true_eq_false,
            if_false, hr, Option.map_some']
        · simp only [runsOf, hc, ne_eq, not_true_eq_false, if_false]
          simp [runInputs, hruns, afterStage]
        · simp only [runsOf, hc, ne_eq, not_true_eq_false, if_false,
            List.foldl_cons]
          simpa [afterStage, hc] using hret
        · simp only [runsOf, hc, ne_eq, not_true_eq_false, if_false]
          simp [pushBacks, hpb, afterStage]
        · simpa [xoutSetups] using hxs
      · refine ⟨{ returnValue := (w.Run (stageInput st i argPair)).returnCode
                  trace := [Event.push_back (st.elastices ++ [some i]),
                    Event.Run (stageInput st i argPair),
                    Event.xoutError "Errors occured!"] }, ?_, ?_, ?_, ?_, ?_⟩
        · simp only [registrationLoop, hq, hc, ne_eq, not_false_eq_true,
            if_true]
        · simp [runsOf, hc, runInputs]
        · simp [runsOf, hc]
        · simp [runsOf, hc, pushBacks]
        · simp [xoutSetups]

theorem mapCount_mapErase (m : ArgumentMapType) (k : String) :
    mapCount (mapErase m k) k = 0 := by
  induction m with
  | nil => rfl
  | cons e m ih =>
    by_cases h : e.1 = k
    · simp [mapErase, h, ih]
    · simp [mapErase, mapCount, h, ih]

theorem mapFind_append_new (m : ArgumentMapType) (k v : String)
    (h : mapCount m k = 0) : mapFind (m ++ [(k, v)]) k = some v := by
  induction m with
  | nil => simp [mapFind]
  | cons e m ih =>
    by_cases he : e.1 = k
    · simp [mapCount, he] at h
    · simp only [mapCount, he, if_false] at h
      simp [mapFind, he, ih h]

theorem mapFind_stageInput (st : LoopState) (i : Nat) (v : String) :
    mapFind (stageInput st i ("-p", v)).argMap "-p" = some v := by
  simp only [stageInput]
  by_cases h : mapCount st.argMap "-p" = 0
  · simp only [h, ne_eq, not_true_eq_false, if_false, mapInsert, if_true]
    exact mapFind_append_new _ _ _ h
  · simp only [h, ne_eq, not_false_eq_true, if_true, mapInsert,
      mapCount_mapErase]
    exact mapFind_append_new _ _ _ (mapCount_mapErase _ _)

theorem runsOf_length_le (w : World) : ∀ (q : List ArgPairType) (i : Nat)
    (st : LoopState), (runsOf w q i st).length ≤ q.length := by
  intro q
  induction q with
  | nil => intro i st; simp [runsOf]
  | cons p rest ih =>
    intro i st
    simp only [runsOf, List.length_cons]
    split
    · simp
    · have := ih (i + 1) (afterStage (st.elastices ++ [some i]) i
        (stageInput st i p) (w.Run (stageInput st i p)) rest)
      omega

/-- The stage at position `j` of the loop started at iteration `i` has level
`i + j` and the `j`-th queued parameter file under `-p`. -/
theorem runsOf_level (w : World) : ∀ (q : List ArgPairType) (i : Nat)
    (st : LoopState) (j : Nat) (inp : StageInput),
    (runsOf w q i st)[j]? = some inp →
      inp.elastixLevel = i + j ∧
      ∀ v, q[j]? = some ("-p", v) → mapFind inp.argMap "-p" = some v := by
  intro q
  induction q with
  | nil => intro i st j inp h; simp [runsOf] at h
  | cons p rest ih =>
    intro i st j inp h
    cases j with
    | zero =>
      simp only [runsOf, List.getElem?_cons_zero, Option.some.injEq] at h
      subst h
      refine ⟨rfl, ?_⟩
      intro v hv
      simp only [List.getElem?_cons_zero, Option.some.injEq] at hv
      subst hv
      exact mapFind_stageInput st i v
    | succ j =>
      simp only [runsOf, List.getElem?_cons_succ] at h
      by_cases hc : (w.Run (stageInput st i p)).returnCode = 0
      · simp only [hc, ne_eq, not_true_eq_false, if_false] at h
        obtain ⟨h1, h2⟩ := ih _ _ _ _ h
        refine ⟨by omega, ?_⟩
        intro v hv
        exact h2 v (by simpa using hv)
      · simp [hc] at h

/-- A stage that returns a non-zero code is the last one that is run. -/
theorem runsOf_stops (w : World) : ∀ (q : List ArgPairType) (i : Nat)
    (st : LoopState) (j : Nat) (inp : StageInput),
    (runsOf w q i st)[j]? = some inp → (w.Run inp).returnCode ≠ 0 →
      (runsOf w q i st).length = j + 1 := by
  intro q
  induction q with
  | nil => intro i st j inp h; simp [runsOf] at h
  | cons p rest ih =>
    intro i st j inp h hne
    cases j with
    | zero =>
      simp only [runsOf, List.getElem?_cons_zero, Option.some.injEq] at h
      subst h
      simp [runsOf, hne]
    | succ j =>
      simp only [runsOf, List.getElem?_cons_succ] at h
      by_cases hc : (w.Run (stageInput st i p)).returnCode = 0
      · simp only [hc, ne_eq, not_true_eq_false, if_false] at h
        have := ih _ _ _ _ h hne
        simp [runsOf, hc, this]
      · simp [hc] at h

/-- A stage is run when all stages before it returned 0. -/
theorem runsOf_reaches (w : World) : ∀ (q : List ArgPairType) (i : Nat)
    (st : LoopState) (j : Nat), j < q.length →
    (∀ j' inp, j' < j → (runsOf w q i st)[j']? = some inp →
      (w.Run inp).returnCode = 0) →
    j < (runsOf w q i st).length := by
  intro q
  induction q with
  | nil => intro i st j h; simp at h
  | cons p rest ih =>
    intro i st j hj hzero
    cases j with
    | zero => simp [runsOf]
    | succ j =>
      have hc : (w.Run (stageInput st i p)).returnCode = 0 :=
        hzero 0 _ (by omega) (by simp [runsOf])
      have hj' : j < rest.length := by simpa using hj
      have := ih (i + 1) (afterStage (st.elastices ++ [some i]) i
        (stageInput st i p) (w.Run (stageInput st i p)) rest) j hj' (by
          intro j' inp hlt hget
          apply hzero (j' + 1) inp (by omega)
          simp [runsOf, hc, hget])
      simp only [runsOf, hc, ne_eq, not_true_eq_false, if_false,
        List.length_cons]
      omega

/-- The first stage of the loop gets the state the loop is entered with. -/
theorem runsOf_first (w : World) (q : List ArgPairType) (i : Nat)
    (st : LoopState) (inp : StageInput)
    (h : (runsOf w q i st)[0]? = some inp) :
    inp.initialTransform = st.transform ∧
    inp.fixedImageContainer = st.fixedImageContainer ∧
    inp.movingImageContainer = st.movingImageContainer ∧
    inp.fixedMaskContainer = st.fixedMaskContainer ∧
    inp.movingMaskContainer = st.movingMaskContainer := by
  cases q with
  | nil => simp [runsOf] at h
  | cons p rest =>
    simp only [runsOf, List.getElem?_cons_zero, Option.some.injEq] at h
    subst h
    simp [stageInput]

/-- Every later stage gets what the stage before it returned. -/
theorem runsOf_carries (w : World) : ∀ (q : List ArgPairType) (i : Nat)
    (st : LoopState) (j : Nat) (inp next : StageInput),
    (runsOf w q i st)[j]? = some inp → (runsOf w q i st)[j + 1]? = some next →
      next.initialTransform = (w.Run inp).finalTransform ∧
      next.fixedImageContainer = (w.Run inp).fixedImageContainer ∧
      next.movingImageContainer = (w.Run inp).movingImageContainer ∧
      next.fixedMaskContainer = (w.Run inp).fixedMaskContainer ∧
      next.movingMaskContainer = (w.Run inp).movingMaskContainer := by
  intro q
  induction q with
  | nil => intro i st j inp next h; simp [runsOf] at h
  | cons p rest ih =>
    intro i st j inp next h hnext
    simp only [runsOf, List.getElem?_cons_succ] at hnext
    by_cases hc : (w.Run (stageInput st i p)).returnCode = 0
    · simp only [hc, ne_eq, not_true_eq_false, if_false] at hnext
      cases j with
      | zero =>
        simp only [runsOf, List.getElem?_cons_zero, Option.some.injEq] at h
        subst h
        have := runsOf_first w rest (i + 1) _ next hnext
        simpa [afterStage] using this
      | succ j =>
        simp only [runsOf, List.getElem?_cons_succ, hc, ne_eq,
          not_true_eq_false, if_false] at h
        exact ih _ _ _ _ _ h hnext
    · simp [hc] at hnext

/-! ## Lemmas on the set-up checks and on `main` -/

theorem checkSetup_quiet (w : World) (st : ParseState) :
    runInputs (checkSetup w st).2 = [] ∧ pushBacks (checkSetup w st).2 = 0 := by
  unfold checkSetup
  by_cases hn : st.nrOfParameterFiles = 0 <;>
  by_cases ho : st.outFolderPresent = true <;>
  by_cases hd : w.FileIsDirectory st.outFolder = true <;>
  by_cases hx : w.xoutSetup (st.outFolder ++ "elastix.log") = 0 <;>
  simp [hn, ho, hd, hx, runInputs, pushBacks]

theorem checkSetup_ok (w : World) (st : ParseState)
    (hn : st.nrOfParameterFiles ≠ 0) (ho : st.outFolderPresent = true)
    (hd : w.FileIsDirectory st.outFolder = true)
    (hx : w.xoutSetup (st.outFolder ++ "elastix.log") = 0) :
    checkSetup w st = (0, [Event.xoutSetup (st.outFolder ++ "elastix.log")]) := by
  unfold checkSetup
  simp [hn, ho, hd, hx, orInt_zero_zero]

theorem checkSetup_no_out (w : World) (st : ParseState)
    (ho : st.outFolderPresent = false) :
    (checkSetup w st).1 = -2 ∧ xoutSetups (checkSetup w st).2 = [] := by
  unfold checkSetup
  by_cases hn : st.nrOfParameterFiles = 0 <;> simp [hn, ho, xoutSetups]

theorem checkSetup_no_directory (w : World) (st : ParseState)
    (ho : st.outFolderPresent = true)
    (hd : w.FileIsDirectory st.outFolder = false) :
    (checkSetup w st).1 ≠ 0 ∧ xoutSetups (checkSetup w st).2 = [] := by
  unfold checkSetup
  by_cases hn : st.nrOfParameterFiles = 0
  · simp [hn, ho, hd, xoutSetups, orInt_zero_neg_one, orInt_neg_one]
  · simp [hn, ho, hd, xoutSetups, orInt_zero_neg_two]

theorem checkSetup_no_p (w : World) (st : ParseState)
    (hn : st.nrOfParameterFiles = 0) :
    (checkSetup w st).1 = (if st.outFolderPresent then -1 else -2) := by
  unfold checkSetup
  by_cases ho : st.outFolderPresent = true <;>
  by_cases hd : w.FileIsDirectory st.outFolder = true <;>
  simp [hn, ho, hd, orInt_zero_neg_one, orInt_neg_one]

theorem main_unfold (w : World) (argv0 : String) (args : List String)
    (h : 2 ≤ args.length) :
    main w argv0 args =
      if (checkSetup w (parseArgs args ParseState.init)).1 ≠ 0 then
        some { returnValue := (checkSetup w (parseArgs args ParseState.init)).1
               trace := (parseArgs args ParseState.init).cerr ++
                 (checkSetup w (parseArgs args ParseState.init)).2 }
      else
        (registrationLoop w (parseArgs args ParseState.init).nrOfParameterFiles
          (parseArgs args ParseState.init).nrOfParameterFiles 0
          (LoopState.init (checkSetup w (parseArgs args ParseState.init)).1
            (mapInsert (parseArgs args ParseState.init).argMap "-argv0" argv0)
            (parseArgs args ParseState.init).parameterFileList)).map
          (fun r => { r with trace := (parseArgs args ParseState.init).cerr ++
            (checkSetup w (parseArgs args ParseState.init)).2 ++ r.trace }) := by
  match args, h with
  | k :: v :: rest, _ => rfl

theorem parse_cerr_quiet (args : List String) :
    runInputs (parseArgs args ParseState.init).cerr = [] ∧
    xoutSetups (parseArgs args ParseState.init).cerr = [] ∧
    pushBacks (parseArgs args ParseState.init).cerr = 0 :=
  onlyCerr_quiet _ (parseArgs_cerr args ParseState.init rfl)

theorem two_le_of_key (args : List String) (key : String)
    (h : keyValues args key ≠ []) : 2 ≤ args.length := by
  match args with
  | [] => simp [keyValues, argPairs] at h
  | [a] => simp [keyValues, argPairs] at h
  | k :: v :: rest => simp

/-- After a successful set-up `main` returns, and its calls of `Run` and its
return value are those of the registration loop started at stage 0. -/
theorem main_passes (w : World) (argv0 : String) (args : List String)
    (hsetup : PassesSetup w args) :
    ∃ r, main w argv0 args = some r ∧
      runInputs r.trace =
        runsOf w ((keyValues args "-p").map (fun v => (("-p", v) : ArgPairType)))
          0 (entryState argv0 args) ∧
      r.returnValue =
        (runsOf w ((keyValues args "-p").map (fun v => (("-p", v) : ArgPairType)))
          0 (entryState argv0 args)).foldl
          (fun _ inp => (w.Run inp).returnCode) 0 ∧
      pushBacks r.trace = (runInputs r.trace).length := by
  obtain ⟨hp, v, hv, hd, hx⟩ := hsetup
  have hpne : keyValues args "-p" ≠ [] := by
    intro h; rw [h] at hp; simp at hp
  have h2 := two_le_of_key args "-p" hpne
  have hnr := parseArgs_nr args ParseState.init
  have hq := parseArgs_queue args ParseState.init
  have hop := parseArgs_outFolderPresent args ParseState.init
  have hof := parseArgs_outFolder args ParseState.init
  simp only [ParseState.init, Nat.zero_add, List.nil_append,
    Bool.false_or] at hnr hq hop hof
  have hne : keyValues args "-out" ≠ [] := by
    intro h; rw [h] at hv; simp at hv
  have hop' : (parseArgs args ParseState.init).outFolderPresent = true := by
    simp only [ParseState.init]
    rw [hop]
    cases hk : keyValues args "-out" with
    | nil => exact absurd hk hne
    | cons a l => rfl
  have hof' : (parseArgs args ParseState.init).outFolder = appendSlash v := by
    simp only [ParseState.init]
    rw [hof]
    exact foldl_last _ _ _ hv
  have hchk := checkSetup_ok w (parseArgs args ParseState.init)
    (by simp only [ParseState.init]; rw [hnr]; omega) hop'
    (by rw [hof']; exact hd) (by rw [hof']; exact hx)
  obtain ⟨r, hr, hruns, hret, hpb, _⟩ := registrationLoop_runs w
    (parseArgs args ParseState.init).nrOfParameterFiles
    (parseArgs args ParseState.init).nrOfParameterFiles 0
    (LoopState.init 0
      (mapInsert (parseArgs args ParseState.init).argMap "-argv0" argv0)
      (parseArgs args ParseState.init).parameterFileList)
    (by simp only [LoopState.init, ParseState.init]; rw [hq, hnr]; simp)
  have hq' : (parseArgs args ParseState.init).parameterFileList =
      (keyValues args "-p").map (fun v => (("-p", v) : ArgPairType)) := by
    simp only [ParseState.init]; exact hq
  simp only [LoopState.init] at hruns hret hpb
  rw [hq'] at hruns hret hpb
  obtain ⟨c1, _, c3⟩ := parse_cerr_quiet args
  refine ⟨{ r with trace := (parseArgs args ParseState.init).cerr ++
      (checkSetup w (parseArgs args ParseState.init)).2 ++ r.trace }, ?_, ?_, ?_, ?_⟩
  · rw [main_unfold w argv0 args h2, hchk]
    simp only [ne_eq, not_true_eq_false, if_false, hr, Option.map_some']
  · simp only [runInputs_append, c1, hchk, runInputs, List.nil_append]
    simpa [entryState, LoopState.init] using hruns
  · simpa [entryState, LoopState.init] using hret
  · simp only [runInputs_append, pushBacks_append, c1, c3, hchk, runInputs,
      pushBacks, List.nil_append, Nat.zero_add]
    rw [hpb, hruns]

theorem foldl_last_code {α β : Type} (f : α → β) (init : β) (l : List α)
    (x : α) (h : l.getLast? = some x) :
    l.foldl (fun _ y => f y) init = f x := by
  obtain ⟨ys, rfl⟩ := List.getLast?_eq_some_iff.mp h
  simp [List.foldl_append]

theorem exampleArgs_passes : PassesSetup exampleWorld exampleArgs :=
  ⟨by decide, "out", by decide, by decide, by decide⟩

/-! ## The claims on `main` -/

/-- C1 (fail-fast stage loop): after a successful set-up `main` returns, and
if every call of `Run` before position `k` returned 0 and the call at position
`k` returns the non-zero code `c`, then `main` returns exactly `c` and `Run`
is called (and a stage object created) exactly `k + 1` times: stage `k` is
run and no stage after it. -/
theorem main_fail_fast (w : World) (argv0 : String) (args : List String)
    (hsetup : PassesSetup w args) :
    ∃ r, main w argv0 args = some r ∧
      ∀ k c, k < (keyValues args "-p").length →
        (∀ j inp, j < k → (runInputs r.trace)[j]? = some inp →
          (w.Run inp).returnCode = 0) →
        (∀ inp, (runInputs r.trace)[k]? = some inp →
          (w.Run inp).returnCode = c) →
        c ≠ 0 →
        r.returnValue = c ∧ (runInputs r.trace).length = k + 1 ∧
          pushBacks r.trace = k + 1 := by
  obtain ⟨r, hr, hruns, hret, hpb⟩ := main_passes w argv0 args hsetup
  refine ⟨r, hr, ?_⟩
  intro k c hk hzero hcode hc
  have hreach : k < (runInputs r.trace).length := by
    rw [hruns]
    apply runsOf_reaches
    · simpa using hk
    · intro j inp hj hget
      exact hzero j inp hj (by rw [hruns]; exact hget)
  have hget : (runInputs r.trace)[k]? = some ((runInputs r.trace)[k]) :=
    List.getElem?_eq_getElem hreach
  have hck := hcode _ hget
  have hlen : (runInputs r.trace).length = k + 1 := by
    have := runsOf_stops w _ 0 (entryState argv0 args) k _
      (by rw [← hruns]; exact hget) (by rw [hck]; exact hc)
    rw [hruns]; exact this
  have hlast : (runInputs r.trace).getLast? = some ((runInputs r.trace)[k]) := by
    rw [List.getLast?_eq_getElem?, hlen]
    simp
  refine ⟨?_, hlen, by rw [hpb, hlen]⟩
  rw [hret, ← hruns, foldl_last_code _ _ _ _ hlast, hck]

theorem main_fail_fast_witness :
    PassesSetup exampleWorld exampleArgs ∧
    ∃ r, main exampleWorld "elastix" exampleArgs = some r ∧
      r.returnValue = 7 ∧ (runInputs r.trace).length = 2 ∧
      pushBacks r.trace = 2 := by
  refine ⟨exampleArgs_passes, ?_⟩
  obtain ⟨r, hr, h⟩ :=
    main_fail_fast exampleWorld "elastix" exampleArgs exampleArgs_passes
  refine ⟨r, hr, ?_⟩
  have hval : main exampleWorld "elastix" exampleArgs =
      some ⟨7, [
        Event.xoutSetup "out/elastix.log",
        Event.push_back [some 0],
        Event.Run ⟨none, none, none, none, none, 0,
          [("-p(1)", "a.txt"), ("-out", "out/"), ("-p(2)", "b.txt"),
            ("-p(3)", "c.txt"), ("-argv0", "elastix"), ("-p", "a.txt")]⟩,
        Event.release 0 [none],
        Event.push_back [none, some 1],
        Event.Run ⟨some 10, some 1, some 2, some 3, some 4, 1,
          [("-p(1)", "a.txt"), ("-out", "out/"), ("-p(2)", "b.txt"),
            ("-p(3)", "c.txt"), ("-argv0", "elastix"), ("-p", "b.txt")]⟩,
        Event.xoutError "Errors occured!"]⟩ := by decide
  rw [hval] at hr
  cases hr
  apply h 1 7 (by decide)
  · intro j inp hj hget
    have hj0 : j = 0 := by omega
    subst hj0
    simp only [runInputs, List.getElem?_cons_zero, Option.some.injEq] at hget
    subst hget
    rfl
  · intro inp hget
    simp only [runInputs, List.getElem?_cons_succ, List.getElem?_cons_zero,
      Option.some.injEq] at hget
    subst hget
    rfl
  · decide

/-- C2 (stage order): after a successful set-up `main` returns; the call of
`Run` at position `i` is made with elastix level `i` and with an argument map
whose `-p` entry is the value of the `(i+1)`-th `-p` of the command line; and
stage `i` (for `i` below the number of `-p`) is run whenever all calls of
`Run` before it returned 0. -/
theorem main_stage_order (w : World) (argv0 : String) (args : List String)
    (hsetup : PassesSetup w args) :
    ∃ r, main w argv0 args = some r ∧
      (∀ (i : Nat) (inp : StageInput), (runInputs r.trace)[i]? = some inp →
        inp.elastixLevel = i ∧
        mapFind inp.argMap "-p" = (keyValues args "-p")[i]?) ∧
      (∀ i, i < (keyValues args "-p").length →
        (∀ j inp, j < i → (runInputs r.trace)[j]? = some inp →
          (w.Run inp).returnCode = 0) →
        i < (runInputs r.trace).length) := by
  obtain ⟨r, hr, hruns, _, _⟩ := main_passes w argv0 args hsetup
  refine ⟨r, hr, ?_, ?_⟩
  · intro i inp hget
    rw [hruns] at hget
    obtain ⟨h1, h2⟩ := runsOf_level w _ 0 (entryState argv0 args) i inp hget
    have hi : i < (keyValues args "-p").length := by
      have hlt := (List.getElem?_eq_some_iff.mp hget).1
      have hle := runsOf_length_le w
        ((keyValues args "-p").map (fun v => (("-p", v) : ArgPairType))) 0
        (entryState argv0 args)
      simp only [List.length_map] at hle
      omega
    refine ⟨by omega, ?_⟩
    rw [List.getElem?_eq_getElem hi]
    apply h2
    simp [List.getElem?_eq_getElem hi]
  · intro i hi hzero
    rw [hruns]
    apply runsOf_reaches
    · simpa using hi
    · intro j inp hj hget
      exact hzero j inp hj (by rw [hruns]; exact hget)

theorem main_stage_order_witness :
    PassesSetup exampleWorld exampleArgs ∧
    ∃ r, main exampleWorld "elastix" exampleArgs = some r ∧
      (∀ inp : StageInput, (runInputs r.trace)[0]? = some inp →
        inp.elastixLevel = 0 ∧ mapFind inp.argMap "-p" = some "a.txt") ∧
      (∀ inp : StageInput, (runInputs r.trace)[1]? = some inp →
        inp.elastixLevel = 1 ∧ mapFind inp.argMap "-p" = some "b.txt") ∧
      0 < (runInputs r.trace).length := by
  refine ⟨exampleArgs_passes, ?_⟩
  obtain ⟨r, hr, h1, h2⟩ :=
    main_stage_order exampleWorld "elastix" exampleArgs exampleArgs_passes
  refine ⟨r, hr, ?_, ?_, ?_⟩
  · intro inp hget
    exact h1 0 inp hget
  · intro inp hget
    exact h1 1 inp hget
  · exact h2 0 (by decide) (by intro j inp hj; omega)

/-- C3 (state carry-forward): after a successful set-up `main` returns and
runs at least one stage; the first stage gets a null initial transform and
null fixed/moving image and mask containers; and the stage at position `i + 1`
gets as initial transform and as the four containers exactly the final
transform and the four containers read from the stage at position `i` after
its `Run`. -/
theorem main_state_carried_forward (w : World) (argv0 : String)
    (args : List String) (hsetup : PassesSetup w args) :
    ∃ r, main w argv0 args = some r ∧
      0 < (runInputs r.trace).length ∧
      (∀ inp : StageInput, (runInputs r.trace)[0]? = some inp →
        inp.initialTransform = none ∧
        inp.fixedImageContainer = none ∧
        inp.movingImageContainer = none ∧
        inp.fixedMaskContainer = none ∧
        inp.movingMaskContainer = none) ∧
      (∀ (i : Nat) (inp next : StageInput), (runInputs r.trace)[i]? = some inp →
        (runInputs r.trace)[i + 1]? = some next →
        next.initialTransform = (w.Run inp).finalTransform ∧
        next.fixedImageContainer = (w.Run inp).fixedImageContainer ∧
        next.movingImageContainer = (w.Run inp).movingImageContainer ∧
        next.fixedMaskContainer = (w.Run inp).fixedMaskContainer ∧
        next.movingMaskContainer = (w.Run inp).movingMaskContainer) := by
  obtain ⟨r, hr, hruns, _, _⟩ := main_passes w argv0 args hsetup
  refine ⟨r, hr, ?_, ?_, ?_⟩
  · rw [hruns]
    apply runsOf_reaches
    · have := hsetup.1
      simpa using this
    · intro j inp hj; omega
  · intro inp hget
    rw [hruns] at hget
    simpa [entryState, LoopState.init] using
      runsOf_first w _ 0 (entryState argv0 args) inp hget
  · intro i inp next hget hnext
    rw [hruns] at hget hnext
    exact runsOf_carries w _ 0 (entryState argv0 args) i inp next hget hnext

theorem main_state_carried_forward_witness :
    PassesSetup exampleWorld exampleArgs ∧
    ∃ r, main exampleWorld "elastix" exampleArgs = some r ∧
      (∀ inp : StageInput, (runInputs r.trace)[0]? = some inp →
        inp.initialTransform = none) ∧
      (∀ inp next : StageInput, (runInputs r.trace)[0]? = some inp →
        (runInputs r.trace)[1]? = some next →
        next.initialTransform = (exampleWorld.Run inp).finalTransform) := by
  refine ⟨exampleArgs_passes, ?_⟩
  obtain ⟨r, hr, _, h1, h2⟩ := main_state_carried_forward exampleWorld
    "elastix" exampleArgs exampleArgs_passes
  refine ⟨r, hr, ?_, ?_⟩
  · intro inp hget
    exact (h1 inp hget).1
  · intro inp next hget hnext
    exact (h2 0 inp next hget hnext).1

/-- Invalid output directory, on the output folder that `main` records: for a
command line with at least one key/value pair in which `-out` is absent, or in
which the output folder recorded for `-out` (the value of its last
occurrence, with the `/` appended) is not an existing directory, `main`
returns a non-zero code, never calls `xoutSetup`, creates no stage object and
never calls `Run`. -/
theorem main_invalid_out_fatal (w : World) (argv0 : String)
    (args : List String) (hlen : 2 ≤ args.length)
    (hout : keyValues args "-out" = [] ∨
      ∃ v, (keyValues args "-out").getLast? = some v ∧
        w.FileIsDirectory (appendSlash v) = false) :
    ∃ r, main w argv0 args = some r ∧ r.returnValue ≠ 0 ∧
      xoutSetups r.trace = [] ∧ runInputs r.trace = [] ∧
      pushBacks r.trace = 0 := by
  have hop := parseArgs_outFolderPresent args ParseState.init
  have hof := parseArgs_outFolder args ParseState.init
  obtain ⟨c1, c2, c3⟩ := parse_cerr_quiet args
  obtain ⟨q1, q2⟩ := checkSetup_quiet w (parseArgs args ParseState.init)
  have hchk : (checkSetup w (parseArgs args ParseState.init)).1 ≠ 0 ∧
      xoutSetups (checkSetup w (parseArgs args ParseState.init)).2 = [] := by
    rcases hout with hnone | ⟨v, hv, hd⟩
    · have hp : (parseArgs args ParseState.init).outFolderPresent = false := by
        rw [hop, hnone]; rfl
      obtain ⟨h1, h2⟩ := checkSetup_no_out w _ hp
      exact ⟨by rw [h1]; decide, h2⟩
    · have hne : keyValues args "-out" ≠ [] := by
        intro h; rw [h] at hv; simp at hv
      have hp : (parseArgs args ParseState.init).outFolderPresent = true := by
        rw [hop]
        cases hk : keyValues args "-out" with
        | nil => exact absurd hk hne
        | cons a l => rfl
      have hf : (parseArgs args ParseState.init).outFolder = appendSlash v := by
        rw [hof]; exact foldl_last _ _ _ hv
      exact checkSetup_no_directory w _ hp (by rw [hf]; exact hd)
  refine ⟨{ returnValue := (checkSetup w (parseArgs args ParseState.init)).1
            trace := (parseArgs args ParseState.init).cerr ++
              (checkSetup w (parseArgs args ParseState.init)).2 },
    ?_, hchk.1, ?_, ?_, ?_⟩
  · rw [main_unfold w argv0 args hlen, if_pos hchk.1]
  · simp [xoutSetups_append, c2, hchk.2]
  · simp [runInputs_append, c1, q1]
  · simp [pushBacks_append, c3, q2]

theorem main_invalid_out_fatal_witness :
    2 ≤ ["-p", "a.txt", "-out", "nowhere"].length ∧
    (∃ v, (keyValues ["-p", "a.txt", "-out", "nowhere"] "-out").getLast? =
        some v ∧ exampleWorld.FileIsDirectory (appendSlash v) = false) ∧
    ∃ r, main exampleWorld "elastix" ["-p", "a.txt", "-out", "nowhere"] =
        some r ∧ r.returnValue ≠ 0 ∧
      xoutSetups r.trace = [] ∧ runInputs r.trace = [] ∧
      pushBacks r.trace = 0 :=
  ⟨by decide, ⟨"nowhere", by decide, by decide⟩,
    main_invalid_out_fatal exampleWorld "elastix"
      ["-p", "a.txt", "-out", "nowhere"] (by decide)
      (Or.inr ⟨"nowhere", by decide, by decide⟩)⟩

/-- C7 (invalid output directory), evaluated where the code departs from the
claim: for `elastix -p a.txt -out nowhere -out out`, in a world where `out/`
is a directory and `nowhere/` is not, the `-out` value of the command line
(its first occurrence, the one the argument map holds and the stage is given)
is `nowhere/`, which is not an existing directory; yet `main` returns 0, calls
`xoutSetup` for `out/elastix.log`, creates a stage object and runs the stage.
Lines 98-99 record every `-out` as the output folder, also the duplicate that
lines 111-113 announce as ignored, so the check of line 134 is made on the
last `-out`. -/
theorem main_invalid_first_out_not_fatal :
    2 ≤ ["-p", "a.txt", "-out", "nowhere", "-out", "out"].length ∧
    (keyValues ["-p", "a.txt", "-out", "nowhere", "-out", "out"]
      "-out").head? = some "nowhere" ∧
    exampleWorld.FileIsDirectory (appendSlash "nowhere") = false ∧
    mapFind (argMapAfterParsing "elastix"
      ["-p", "a.txt", "-out", "nowhere", "-out", "out"]) "-out" =
        some (appendSlash "nowhere") ∧
    (main exampleWorld "elastix"
      ["-p", "a.txt", "-out", "nowhere", "-out", "out"]).map
      (fun r => (r.returnValue, xoutSetups r.trace, pushBacks r.trace,
        (runInputs r.trace).length)) =
      some (0, ["out/elastix.log"], 1, 1) := by
  decide

/-- C8 (missing parameter file): for a command line with at least one
key/value pair and no key `-p`, `main` returns a non-zero code, creates no
stage object and never calls `Run`, whatever `-out` is and whatever
`FileIsDirectory` and `xoutSetup` return. -/
theorem main_missing_p_fatal (w : World) (argv0 : String)
    (args : List String) (hlen : 2 ≤ args.length)
    (hp : keyValues args "-p" = []) :
    ∃ r, main w argv0 args = some r ∧ r.returnValue ≠ 0 ∧
      runInputs r.trace = [] ∧ pushBacks r.trace = 0 := by
  have hnr : (parseArgs args ParseState.init).nrOfParameterFiles = 0 := by
    rw [parseArgs_nr, hp]; rfl
  obtain ⟨c1, _, c3⟩ := parse_cerr_quiet args
  obtain ⟨q1, q2⟩ := checkSetup_quiet w (parseArgs args ParseState.init)
  have hchk : (checkSetup w (parseArgs args ParseState.init)).1 ≠ 0 := by
    rw [checkSetup_no_p w _ hnr]
    split <;> decide
  refine ⟨{ returnValue := (checkSetup w (parseArgs args ParseState.init)).1
            trace := (parseArgs args ParseState.init).cerr ++
              (checkSetup w (parseArgs args ParseState.init)).2 },
    ?_, hchk, ?_, ?_⟩
  · rw [main_unfold w argv0 args hlen, if_pos hchk]
  · simp [runInputs_append, c1, q1]
  · simp [pushBacks_append, c3, q2]

theorem main_missing_p_fatal_witness :
    2 ≤ ["-f", "fixed.mhd", "-out", "out"].length ∧
    keyValues ["-f", "fixed.mhd", "-out", "out"] "-p" = [] ∧
    ∃ r, main exampleWorld "elastix" ["-f", "fixed.mhd", "-out", "out"] =
        some r ∧ r.returnValue ≠ 0 ∧
      runInputs r.trace = [] ∧ pushBacks r.trace = 0 :=
  ⟨by decide, by decide,
    main_missing_p_fatal exampleWorld "elastix"
      ["-f", "fixed.mhd", "-out", "out"] (by decide) (by decide)⟩

/-- C9 (exit code without `-p`), evaluated where the code departs from the
claim: for the command line `elastix -f fixed.mhd`, which has a key/value pair
but neither `-p` nor `-out`, `main` returns -2 and not -1, in every world:
the assignment `returndummy = -2` of line 155 overwrites the -1 recorded on
line 127. -/
theorem main_no_p_no_out_returns_minus_two (w : World) :
    keyValues ["-f", "fixed.mhd"] "-p" = [] ∧
    main w "elastix" ["-f", "fixed.mhd"] =
      some ⟨-2, [Event.cerr "ERROR: No CommandLine option \"-p\" given!",
        Event.cerr "ERROR: No CommandLine option \"-out\" given!"]⟩ :=
  ⟨by decide, rfl⟩

/-! ## Lemmas on `GetExactValue` -/

theorem GetExactValue_swap (env : MetricEnv) (self : MetricBase)
    (parameters : ParametersType) (s : Nat)
    (hadv : self.isAdvancedMetric = true) (huse : self.useImageSampler = true)
    (hs : self.imageSampler = some s)
    (hfull : (self.heap s).isFullSampler = false) :
    GetExactValue env self parameters =
      match env.GetValue (SetAdvancedMetricImageSampler
          (copySettings (exactMetricSampler self).2 (exactMetricSampler self).1 s)
          (some (exactMetricSampler self).1)) parameters with
      | Except.error e =>
        (Except.error e, (SetAdvancedMetricImageSampler
          (copySettings (exactMetricSampler self).2 (exactMetricSampler self).1 s)
          (some (exactMetricSampler self).1)).emit
          (MetricEvent.GetValue (some (exactMetricSampler self).1) parameters))
      | Except.ok exactValue =>
        (Except.ok exactValue, SetAdvancedMetricImageSampler
          ((SetAdvancedMetricImageSampler
            (copySettings (exactMetricSampler self).2
              (exactMetricSampler self).1 s)
            (some (exactMetricSampler self).1)).emit
            (MetricEvent.GetValue (some (exactMetricSampler self).1) parameters))
          (some s)) := by
  have hadv' : (exactMetricSampler self).2.isAdvancedMetric = true := by
    unfold exactMetricSampler; split <;> simp [hadv]
  have huse' : (exactMetricSampler self).2.useImageSampler = true := by
    unfold exactMetricSampler; split <;> simp [huse]
  have hget : GetAdvancedMetricImageSampler self = some s := by
    simp [GetAdvancedMetricImageSampler, hadv, huse, hs]
  have hinst : (SetAdvancedMetricImageSampler
      (copySettings (exactMetricSampler self).2 (exactMetricSampler self).1 s)
      (some (exactMetricSampler self).1)).imageSampler =
        some (exactMetricSampler self).1 := by
    simp [SetAdvancedMetricImageSampler, copySettings, hadv', huse',
      MetricBase.emit]
  unfold GetExactValue
  simp only [hget, hfull]
  simp only [hinst, Bool.false_eq_true, if_false]

theorem exactMetricSampler_fields (self : MetricBase) :
    (exactMetricSampler self).2.isAdvancedMetric = self.isAdvancedMetric ∧
    (exactMetricSampler self).2.useImageSampler = self.useImageSampler ∧
    (exactMetricSampler self).2.m_ExactMetricSampler =
      some (exactMetricSampler self).1 := by
  unfold exactMetricSampler
  split <;> rename_i h <;> simp [h]

/-! ## The claims on `GetExactValue` and `BeforeEachResolutionBase` -/

/-- C4 (the sampler is restored): for an advanced metric that uses an image
sampler and whose active sampler `s` is not a full sampler, when
`GetExactValue` returns normally (the evaluation inside it returned a value)
the sampler installed on the metric, and the one
`GetAdvancedMetricImageSampler` reports, is again `s`. -/
theorem GetExactValue_restores_sampler (env : MetricEnv) (self : MetricBase)
    (parameters : ParametersType) (s : Nat) (value : MeasureType)
    (hadv : self.isAdvancedMetric = true) (huse : self.useImageSampler = true)
    (hs : self.imageSampler = some s)
    (hfull : (self.heap s).isFullSampler = false)
    (hret : (GetExactValue env self parameters).1 = Except.ok value) :
    (GetExactValue env self parameters).2.imageSampler = some s ∧
    GetAdvancedMetricImageSampler (GetExactValue env self parameters).2 =
      some s := by
  obtain ⟨hadv', huse', _⟩ := exactMetricSampler_fields self
  rw [hadv] at hadv'
  rw [huse] at huse'
  rw [GetExactValue_swap env self parameters s hadv huse hs hfull] at hret ⊢
  split at hret
  · simp at hret
  · rename_i v heq
    simp only [heq]
    simp [SetAdvancedMetricImageSampler, GetAdvancedMetricImageSampler,
      MetricBase.emit, copySettings, hadv', huse']

theorem GetExactValue_restores_sampler_witness :
    exampleMetric.isAdvancedMetric = true ∧
    exampleMetric.useImageSampler = true ∧
    exampleMetric.imageSampler = some 0 ∧
    (exampleMetric.heap 0).isFullSampler = false ∧
    (GetExactValue exampleEnv exampleMetric [1, 2]).1 = Except.ok 3 ∧
    (GetExactValue exampleEnv exampleMetric [1, 2]).2.imageSampler = some 0 ∧
    GetAdvancedMetricImageSampler
      (GetExactValue exampleEnv exampleMetric [1, 2]).2 = some 0 :=
  ⟨rfl, rfl, rfl, rfl, rfl,
    GetExactValue_restores_sampler exampleEnv exampleMetric [1, 2] 0 3
      rfl rfl rfl rfl rfl⟩

/-- C5, as stated, fails: on the example metric, whose active sampler is the
subset sampler at address 0, an evaluation that throws leaves `GetExactValue`
with the new full sampler at address 1 installed on the metric, not the
sampler at address 0. -/
theorem GetExactValue_failure_not_reverted :
    exampleMetric.isAdvancedMetric = true ∧
    exampleMetric.useImageSampler = true ∧
    exampleMetric.imageSampler = some 0 ∧
    (exampleMetric.heap 0).isFullSampler = false ∧
    (GetExactValue failingEnv exampleMetric []).1 =
      Except.error "Too many samples map outside moving image buffer" ∧
    (GetExactValue failingEnv exampleMetric []).2.imageSampler = some 1 ∧
    ((GetExactValue failingEnv exampleMetric []).2.heap 1).isFullSampler = true ∧
    (GetExactValue failingEnv exampleMetric []).2.imageSampler ≠ some 0 :=
  ⟨rfl, rfl, rfl, rfl, rfl, rfl, rfl, by decide⟩

/-- C5, amended: for an advanced metric that uses an image sampler, whose
active sampler `s` is an allocated sampler that is not a full sampler and
whose exact metric sampler, when it exists already, is a full sampler: if the
evaluation inside `GetExactValue` throws, the exception leaves `GetExactValue`
and the sampler installed on the metric afterwards is the exact metric sampler
`m_ExactMetricSampler`, a full sampler different from `s`. -/
theorem GetExactValue_failure_keeps_full_sampler (env : MetricEnv)
    (self : MetricBase) (parameters : ParametersType) (s : Nat) (e : String)
    (hadv : self.isAdvancedMetric = true) (huse : self.useImageSampler = true)
    (hs : self.imageSampler = some s)
    (hfull : (self.heap s).isFullSampler = false)
    (halloc : s < self.nextFree)
    (hexact : ∀ x, self.m_ExactMetricSampler = some x →
      (self.heap x).isFullSampler = true)
    (hthrow : (GetExactValue env self parameters).1 = Except.error e) :
    ∃ f, (GetExactValue env self parameters).2.imageSampler = some f ∧
      (GetExactValue env self parameters).2.m_ExactMetricSampler = some f ∧
      ((GetExactValue env self parameters).2.heap f).isFullSampler = true ∧
      f ≠ s := by
  obtain ⟨hadv', huse', hex'⟩ := exactMetricSampler_fields self
  rw [hadv] at hadv'
  rw [huse] at huse'
  have hf : ((exactMetricSampler self).2.heap (exactMetricSampler self).1).isFullSampler
      = true := by
    unfold exactMetricSampler
    split
    · rename_i x hx; exact hexact x hx
    · simp
  have hne : (exactMetricSampler self).1 ≠ s := by
    unfold exactMetricSampler
    split
    · rename_i x hx
      intro hxs
      have := hexact x hx
      simp only at hxs
      rw [hxs, hfull] at this
      exact Bool.noConfusion this
    · simp only; omega
  refine ⟨(exactMetricSampler self).1, ?_⟩
  rw [GetExactValue_swap env self parameters s hadv huse hs hfull] at hthrow ⊢
  split at hthrow
  · rename_i err heq
    simp only [heq]
    refine ⟨?_, ?_, ?_, hne⟩
    · simp [SetAdvancedMetricImageSampler, MetricBase.emit, copySettings,
        hadv', huse']
    · simp [SetAdvancedMetricImageSampler, MetricBase.emit, copySettings,
        hadv', huse', hex']
    · simp [SetAdvancedMetricImageSampler, MetricBase.emit, copySettings,
        hadv', huse', hf]
  · simp at hthrow

theorem GetExactValue_failure_keeps_full_sampler_witness :
    exampleMetric.isAdvancedMetric = true ∧
    exampleMetric.useImageSampler = true ∧
    exampleMetric.imageSampler = some 0 ∧
    (exampleMetric.heap 0).isFullSampler = false ∧
    0 < exampleMetric.nextFree ∧
    (∀ x, exampleMetric.m_ExactMetricSampler = some x →
      (exampleMetric.heap x).isFullSampler = true) ∧
    (GetExactValue failingEnv exampleMetric []).1 =
      Except.error "Too many samples map outside moving image buffer" ∧
    ∃ f, (GetExactValue failingEnv exampleMetric []).2.imageSampler = some f ∧
      (GetExactValue failingEnv exampleMetric []).2.m_ExactMetricSampler =
        some f ∧
      ((GetExactValue failingEnv exampleMetric []).2.heap f).isFullSampler =
        true ∧
      f ≠ 0 :=
  ⟨rfl, rfl, rfl, rfl, by decide, (by intro x hx; cases hx), rfl,
    GetExactValue_failure_keeps_full_sampler failingEnv exampleMetric [] 0
      "Too many samples map outside moving image buffer"
      rfl rfl rfl rfl (by decide) (by intro x hx; cases hx) rfl⟩

/-- C10 (full sampler): for a metric whose active sampler `s` is a full
sampler, `GetExactValue` returns what the metric's `GetValue` returns on the
metric as it is, performs exactly that one evaluation, calls `SetImageSampler`
not at all, and leaves the installed sampler, the exact metric sampler and the
sampler objects as they were. -/
theorem GetExactValue_full_sampler (env : MetricEnv) (self : MetricBase)
    (parameters : ParametersType) (s : Nat)
    (hs : GetAdvancedMetricImageSampler self = some s)
    (hfull : (self.heap s).isFullSampler = true) :
    (GetExactValue env self parameters).1 = env.GetValue self parameters ∧
    (GetExactValue env self parameters).2.log =
      self.log ++ [MetricEvent.GetValue (some s) parameters] ∧
    evaluations (GetExactValue env self parameters).2.log =
      evaluations self.log + 1 ∧
    samplerInstallations (GetExactValue env self parameters).2.log =
      samplerInstallations self.log ∧
    (GetExactValue env self parameters).2.imageSampler = some s ∧
    (GetExactValue env self parameters).2.m_ExactMetricSampler =
      self.m_ExactMetricSampler ∧
    (GetExactValue env self parameters).2.heap = self.heap := by
  have himg : self.imageSampler = some s := by
    unfold GetAdvancedMetricImageSampler at hs
    split at hs
    · simp at hs
    · split at hs
      · simp at hs
      · exact hs
  have hev : ∀ (l : List MetricEvent) (e : MetricEvent),
      evaluations (l ++ [e]) = evaluations l + evaluations [e] := by
    intro l e
    induction l with
    | nil => simp [evaluations]
    | cons x xs ih => cases x <;> simp [evaluations, ih]; omega
  have hin : ∀ (l : List MetricEvent) (e : MetricEvent),
      samplerInstallations (l ++ [e]) =
        samplerInstallations l + samplerInstallations [e] := by
    intro l e
    induction l with
    | nil => simp [samplerInstallations]
    | cons x xs ih => cases x <;> simp [samplerInstallations, ih]; omega
  have hval : GetExactValue env self parameters =
      (env.GetValue self parameters,
        self.emit (MetricEvent.GetValue (some s) parameters)) := by
    unfold GetExactValue
    simp only [hs, hfull, if_true, himg]
  rw [hval]
  refine ⟨rfl, rfl, ?_, ?_, himg, rfl, rfl⟩
  · simp only [MetricBase.emit]; rw [hev]; rfl
  · simp only [MetricBase.emit]; rw [hin]; rfl

theorem GetExactValue_full_sampler_witness :
    GetAdvancedMetricImageSampler fullSamplerMetric = some 0 ∧
    (fullSamplerMetric.heap 0).isFullSampler = true ∧
    (GetExactValue exampleEnv fullSamplerMetric [1, 2]).1 = Except.ok 3 ∧
    (GetExactValue exampleEnv fullSamplerMetric [1, 2]).2.log =
      [MetricEvent.GetValue (some 0) [1, 2]] := by
  have h := GetExactValue_full_sampler exampleEnv fullSamplerMetric [1, 2] 0
    rfl rfl
  exact ⟨rfl, rfl, h.1, h.2.1⟩

/-- C6 (required ratio): for an advanced metric, after
`BeforeEachResolutionBase` the required ratio of valid samples is 0 when the
configuration has `CheckNumberOfSamples` false for the metric at the current
level, whatever it has for `RequiredRatioOfValidSamples`, and then no ratio
`valid / total` is below it; otherwise (entry true, or no entry) it is the
value the configuration has for `RequiredRatioOfValidSamples`, and 0.25 when
it has none. -/
theorem BeforeEachResolutionBase_required_ratio (env : MetricEnv)
    (self : MetricBase) (hadv : self.isAdvancedMetric = true) :
    (env.boolParameter "CheckNumberOfSamples" self.componentLabel
        env.currentLevel 0 = some false →
      (BeforeEachResolutionBase env self).requiredRatioOfValidSamples = 0 ∧
      ∀ valid total : Nat, ¬ ((valid : ℚ) / (total : ℚ) <
        (BeforeEachResolutionBase env self).requiredRatioOfValidSamples)) ∧
    (env.boolParameter "CheckNumberOfSamples" self.componentLabel
        env.currentLevel 0 ≠ some false →
      (BeforeEachResolutionBase env self).requiredRatioOfValidSamples =
        match env.floatParameter "RequiredRatioOfValidSamples"
          self.componentLabel env.currentLevel 0 with
        | some ratio => ratio
        | none => 1 / 4) := by
  constructor
  · intro hfalse
    have h0 : (BeforeEachResolutionBase env self).requiredRatioOfValidSamples
        = 0 := by
      unfold BeforeEachResolutionBase
      simp only [MetricBase.emit, ReadParameter]
      split <;> simp [hadv, hfalse]
    refine ⟨h0, ?_⟩
    intro valid total
    rw [h0]
    have : (0 : ℚ) ≤ (valid : ℚ) / (total : ℚ) := by positivity
    exact not_lt.mpr this
  · intro hcheck
    have hc : ReadParameter true (env.boolParameter "CheckNumberOfSamples"
        self.componentLabel env.currentLevel 0) = true := by
      unfold ReadParameter
      split
      · rename_i v hv
        cases v
        · exact absurd hv hcheck
        · rfl
      · rfl
    unfold ReadParameter at hc
    unfold BeforeEachResolutionBase
    simp only [MetricBase.emit, ReadParameter]
    split <;> simp only [hadv, hc, if_true, Bool.true_eq_false, not_false_eq_true,
      if_false, not_true_eq_false] <;>
      (generalize env.floatParameter "RequiredRatioOfValidSamples"
        self.componentLabel env.currentLevel 0 = entry
       cases entry <;> rfl)

theorem BeforeEachResolutionBase_required_ratio_witness :
    exampleMetric.isAdvancedMetric = true ∧
    (BeforeEachResolutionBase failingEnv exampleMetric).requiredRatioOfValidSamples
      = 0 ∧
    (BeforeEachResolutionBase exampleEnv exampleMetric).requiredRatioOfValidSamples
      = 1 / 4 :=
  ⟨rfl,
    ((BeforeEachResolutionBase_required_ratio failingEnv exampleMetric rfl).1
      rfl).1,
    (BeforeEachResolutionBase_required_ratio exampleEnv exampleMetric rfl).2
      (by intro h; cases h)⟩

/-! ## Further lemmas on the metric -/

theorem evaluations_append (xs ys : List MetricEvent) :
    evaluations (xs ++ ys) = evaluations xs + evaluations ys := by
  induction xs with
  | nil => simp [evaluations]
  | cons e es ih => cases e <;> simp [evaluations, ih]; omega

theorem copySettings_heap_exact (self : MetricBase) (exact current : Nat) :
    ((copySettings self exact current).heap exact).isFullSampler =
      (self.heap exact).isFullSampler ∧
    ((copySettings self exact current).heap exact).input =
      (self.heap current).input ∧
    ((copySettings self exact current).heap exact).mask =
      (self.heap current).mask ∧
    ((copySettings self exact current).heap exact).inputImageRegion =
      (self.heap current).inputImageRegion := by
  by_cases h : current = exact
  · subst h
    simp [copySettings]
  · simp [copySettings, Function.update_noteq h]

/-! ## The claims on the exact value, the sampler and the set-up of a metric -/

/-- C11 (evaluation under an equivalent full sampler): for an advanced metric
that uses an image sampler, whose active sampler `s` is an allocated sampler
that is not a full sampler and whose exact metric sampler, when it exists
already, is a full sampler: there is one state `atCall` of the metric, the
same for every behaviour of `GetValue`, on which `GetExactValue` calls
`GetValue`; in it the installed sampler is the metric's exact metric sampler
`m_ExactMetricSampler`, a full sampler whose input image, mask and input image
region are those of `s`; `GetExactValue` makes exactly this one evaluation and
returns its result. -/
theorem GetExactValue_evaluates_full_sampler (self : MetricBase)
    (parameters : ParametersType) (s : Nat)
    (hadv : self.isAdvancedMetric = true) (huse : self.useImageSampler = true)
    (hs : self.imageSampler = some s)
    (hfull : (self.heap s).isFullSampler = false)
    (halloc : s < self.nextFree)
    (hexact : ∀ x, self.m_ExactMetricSampler = some x →
      (self.heap x).isFullSampler = true) :
    ∃ (atCall : MetricBase) (exact : Nat),
      GetAdvancedMetricImageSampler atCall = some exact ∧
      atCall.m_ExactMetricSampler = some exact ∧
      (atCall.heap exact).isFullSampler = true ∧
      (atCall.heap exact).input = (self.heap s).input ∧
      (atCall.heap exact).mask = (self.heap s).mask ∧
      (atCall.heap exact).inputImageRegion = (self.heap s).inputImageRegion ∧
      ∀ env : MetricEnv,
        (GetExactValue env self parameters).1 =
          env.GetValue atCall parameters ∧
        evaluations (GetExactValue env self parameters).2.log =
          evaluations self.log + 1 := by
  obtain ⟨hadv', huse', hex'⟩ := exactMetricSampler_fields self
  rw [hadv] at hadv'
  rw [huse] at huse'
  have hf : ((exactMetricSampler self).2.heap
      (exactMetricSampler self).1).isFullSampler = true := by
    unfold exactMetricSampler
    split
    · rename_i x hx; exact hexact x hx
    · simp
  have hheap : (exactMetricSampler self).2.heap s = self.heap s := by
    unfold exactMetricSampler
    split
    · rfl
    · have hne : s ≠ self.nextFree := by omega
      simp [Function.update_noteq hne]
  have hlog : (exactMetricSampler self).2.log = self.log := by
    unfold exactMetricSampler
    split <;> rfl
  obtain ⟨c1, c2, c3, c4⟩ := copySettings_heap_exact (exactMetricSampler self).2
    (exactMetricSampler self).1 s
  refine ⟨SetAdvancedMetricImageSampler
      (copySettings (exactMetricSampler self).2 (exactMetricSampler self).1 s)
      (some (exactMetricSampler self).1), (exactMetricSampler self).1,
    ?_, ?_, ?_, ?_, ?_, ?_, ?_⟩
  · simp [SetAdvancedMetricImageSampler, GetAdvancedMetricImageSampler,
      MetricBase.emit, copySettings, hadv', huse']
  · simp [SetAdvancedMetricImageSampler, MetricBase.emit, copySettings,
      hadv', huse', hex']
  · have : (SetAdvancedMetricImageSampler
        (copySettings (exactMetricSampler self).2 (exactMetricSampler self).1 s)
        (some (exactMetricSampler self).1)).heap =
        (copySettings (exactMetricSampler self).2
          (exactMetricSampler self).1 s).heap := by
      simp [SetAdvancedMetricImageSampler, MetricBase.emit, copySettings,
        hadv', huse']
    rw [this, c1, hf]
  · have : (SetAdvancedMetricImageSampler
        (copySettings (exactMetricSampler self).2 (exactMetricSampler self).1 s)
        (some (exactMetricSampler self).1)).heap =
        (copySettings (exactMetricSampler self).2
          (exactMetricSampler self).1 s).heap := by
      simp [SetAdvancedMetricImageSampler, MetricBase.emit, copySettings,
        hadv', huse']
    rw [this, c2, hheap]
  · have : (SetAdvancedMetricImageSampler
        (copySettings (exactMetricSampler self).2 (exactMetricSampler self).1 s)
        (some (exactMetricSampler self).1)).heap =
        (copySettings (exactMetricSampler self).2
          (exactMetricSampler self).1 s).heap := by
      simp [SetAdvancedMetricImageSampler, MetricBase.emit, copySettings,
        hadv', huse']
    rw [this, c3, hheap]
  · have : (SetAdvancedMetricImageSampler
        (copySettings (exactMetricSampler self).2 (exactMetricSampler self).1 s)
        (some (exactMetricSampler self).1)).heap =
        (copySettings (exactMetricSampler self).2
          (exactMetricSampler self).1 s).heap := by
      simp [SetAdvancedMetricImageSampler, MetricBase.emit, copySettings,
        hadv', huse']
    rw [this, c4, hheap]
  · intro env
    rw [GetExactValue_swap env self parameters s hadv huse hs hfull]
    split
    · rename_i e heq
      refine ⟨heq.symm, ?_⟩
      simp [SetAdvancedMetricImageSampler, MetricBase.emit, copySettings,
        hadv', huse', hlog, evaluations_append, evaluations]
    · rename_i v heq
      refine ⟨heq.symm, ?_⟩
      simp [SetAdvancedMetricImageSampler, MetricBase.emit, copySettings,
        hadv', huse', hlog, evaluations_append, evaluations]

theorem GetExactValue_evaluates_full_sampler_witness :
    exampleMetric.isAdvancedMetric = true ∧
    exampleMetric.useImageSampler = true ∧
    exampleMetric.imageSampler = some 0 ∧
    (exampleMetric.heap 0).isFullSampler = false ∧
    0 < exampleMetric.nextFree ∧
    (∀ x, exampleMetric.m_ExactMetricSampler = some x →
      (exampleMetric.heap x).isFullSampler = true) ∧
    ∃ (atCall : MetricBase) (exact : Nat),
      GetAdvancedMetricImageSampler atCall = some exact ∧
      atCall.m_ExactMetricSampler = some exact ∧
      (atCall.heap exact).isFullSampler = true ∧
      (atCall.heap exact).input = some 1 ∧
      (atCall.heap exact).mask = none ∧
      (atCall.heap exact).inputImageRegion = [0, 0, 64, 64] ∧
      ∀ env : MetricEnv,
        (GetExactValue env exampleMetric [1, 2]).1 =
          env.GetValue atCall [1, 2] ∧
        evaluations (GetExactValue env exampleMetric [1, 2]).2.log =
          evaluations exampleMetric.log + 1 :=
  ⟨rfl, rfl, rfl, rfl, by decide, (by intro x hx; cases hx),
    GetExactValue_evaluates_full_sampler exampleMetric [1, 2] 0
      rfl rfl rfl rfl (by decide) (by intro x hx; cases hx)⟩

theorem GetAdvancedMetricImageSampler_none (self : MetricBase)
    (h : self.isAdvancedMetric = false ∨ self.useImageSampler = false ∨
      self.imageSampler = none) :
    GetAdvancedMetricImageSampler self = none := by
  unfold GetAdvancedMetricImageSampler
  rcases h with h | h | h
  · simp [h]
  · simp [h]
  · split
    · rfl
    · split
      · rfl
      · exact h

/-- C12 (no sampler support): for a metric that is not an advanced metric, or
does not use an image sampler, or whose image sampler is null, `GetExactValue`
returns zero for every parameter vector, without throwing, without a call of
`GetValue` (the log gains no evaluation) and without changing the metric. -/
theorem GetExactValue_without_sampler (env : MetricEnv) (self : MetricBase)
    (parameters : ParametersType)
    (h : self.isAdvancedMetric = false ∨ self.useImageSampler = false ∨
      self.imageSampler = none) :
    (GetExactValue env self parameters).1 = Except.ok 0 ∧
    (GetExactValue env self parameters).2.log = self.log ∧
    evaluations (GetExactValue env self parameters).2.log =
      evaluations self.log ∧
    GetExactValue env self parameters = (Except.ok 0, self) := by
  have hval : GetExactValue env self parameters = (Except.ok 0, self) := by
    unfold GetExactValue
    rw [GetAdvancedMetricImageSampler_none self h]
  rw [hval]
  exact ⟨rfl, rfl, rfl, rfl⟩

theorem GetExactValue_without_sampler_witness :
    (plainMetric.isAdvancedMetric = false ∨
      plainMetric.useImageSampler = false ∨ plainMetric.imageSampler = none) ∧
    (GetExactValue failingEnv plainMetric [1, 2]).1 = Except.ok 0 ∧
    (GetExactValue failingEnv plainMetric [1, 2]).2.log = [] :=
  ⟨Or.inl rfl,
    (GetExactValue_without_sampler failingEnv plainMetric [1, 2]
      (Or.inl rfl)).1,
    (GetExactValue_without_sampler failingEnv plainMetric [1, 2]
      (Or.inl rfl)).2.1⟩

theorem BeforeEachResolutionBase_show (env : MetricEnv) (self : MetricBase) :
    (BeforeEachResolutionBase env self).m_ShowExactMetricValue =
      ReadParameter false (env.boolParameter "ShowExactMetricValue"
        self.componentLabel env.currentLevel 0) ∧
    (BeforeEachResolutionBase env self).componentLabel =
      self.componentLabel := by
  unfold BeforeEachResolutionBase
  simp only [MetricBase.emit]
  constructor <;> (split <;> split <;> try split) <;> rfl

theorem evaluationPoints_append (xs ys : List MetricEvent) :
    evaluationPoints (xs ++ ys) = evaluationPoints xs ++ evaluationPoints ys := by
  induction xs with
  | nil => simp [evaluationPoints]
  | cons e es ih => cases e <;> simp [evaluationPoints, ih]

theorem SetAdvancedMetricImageSampler_keeps (self : MetricBase)
    (sampler : Option Nat) :
    (SetAdvancedMetricImageSampler self sampler).m_ShowExactMetricValue =
      self.m_ShowExactMetricValue ∧
    (SetAdvancedMetricImageSampler self sampler).componentLabel =
      self.componentLabel := by
  unfold SetAdvancedMetricImageSampler
  split
  · exact ⟨rfl, rfl⟩
  · split <;> exact ⟨rfl, rfl⟩

theorem exactMetricSampler_keeps (self : MetricBase) :
    (exactMetricSampler self).2.m_ShowExactMetricValue =
      self.m_ShowExactMetricValue ∧
    (exactMetricSampler self).2.componentLabel = self.componentLabel := by
  unfold exactMetricSampler
  split <;> exact ⟨rfl, rfl⟩

theorem sampler_of_exposed (self : MetricBase) (s : Nat)
    (h : GetAdvancedMetricImageSampler self = some s) :
    self.isAdvancedMetric = true ∧ self.useImageSampler = true ∧
    self.imageSampler = some s := by
  unfold GetAdvancedMetricImageSampler at h
  split at h
  · simp at h
  · split at h
    · simp at h
    · rename_i h1 h2
      exact ⟨by simpa using h1, by simpa using h2, h⟩

/-- The method `GetExactValue` leaves the reporting flag and the component
label as they are, and makes one evaluation, at its argument, when the metric
exposes a sampler and none otherwise. -/
theorem GetExactValue_keeps (env : MetricEnv) (self : MetricBase)
    (parameters : ParametersType) :
    (GetExactValue env self parameters).2.m_ShowExactMetricValue =
      self.m_ShowExactMetricValue ∧
    (GetExactValue env self parameters).2.componentLabel =
      self.componentLabel ∧
    evaluationPoints (GetExactValue env self parameters).2.log =
      evaluationPoints self.log ++
        (if GetAdvancedMetricImageSampler self = none then []
         else [parameters]) := by
  cases hs : GetAdvancedMetricImageSampler self with
  | none =>
    have hval : GetExactValue env self parameters = (Except.ok 0, self) := by
      unfold GetExactValue
      rw [hs]
    rw [hval]
    simp
  | some s =>
    obtain ⟨hadv, huse, himg⟩ := sampler_of_exposed self s hs
    by_cases hfull : (self.heap s).isFullSampler = true
    · have hval : GetExactValue env self parameters =
          (env.GetValue self parameters,
            self.emit (MetricEvent.GetValue (some s) parameters)) := by
        unfold GetExactValue
        simp only [hs, hfull, if_true, himg]
      rw [hval]
      simp [MetricBase.emit, evaluationPoints_append, evaluationPoints]
    · have hfull' : (self.heap s).isFullSampler = false := by
        simpa using hfull
      obtain ⟨hadv', huse', _⟩ := exactMetricSampler_fields self
      rw [hadv] at hadv'
      rw [huse] at huse'
      obtain ⟨k1, k2⟩ := exactMetricSampler_keeps self
      have hlog : (exactMetricSampler self).2.log = self.log := by
        unfold exactMetricSampler
        split <;> rfl
      rw [GetExactValue_swap env self parameters s hadv huse himg hfull']
      split
      · simp [SetAdvancedMetricImageSampler, MetricBase.emit, copySettings,
          hadv', huse', hlog, k1, k2, evaluationPoints_append,
          evaluationPoints]
      · simp [SetAdvancedMetricImageSampler, MetricBase.emit, copySettings,
          hadv', huse', hlog, k1, k2, evaluationPoints_append,
          evaluationPoints]

/-- The method `AfterEachIterationBase` on any metric: with the reporting
flag set it is one call of `GetExactValue` at the optimizer's current
position, whose value is written to the column of the metric; without the
flag it does nothing. -/
theorem AfterEachIterationBase_unfold (env : MetricEnv) (self : MetricBase) :
    (self.m_ShowExactMetricValue = true →
      AfterEachIterationBase env self =
        match GetExactValue env self env.currentPosition with
        | (Except.error e, after) => (some e, after)
        | (Except.ok value, after) =>
          (none, after.emit (MetricEvent.xoutIteration
            ("Exact" ++ self.componentLabel) value))) ∧
    (self.m_ShowExactMetricValue = false →
      AfterEachIterationBase env self = (none, self)) := by
  constructor
  · intro h
    unfold AfterEachIterationBase
    simp only [h, if_true]
  · intro h
    unfold AfterEachIterationBase
    simp [h]

theorem AfterEachIterationBase_keeps (env : MetricEnv) (self : MetricBase) :
    (AfterEachIterationBase env self).2.m_ShowExactMetricValue =
      self.m_ShowExactMetricValue ∧
    (AfterEachIterationBase env self).2.componentLabel =
      self.componentLabel ∧
    evaluationPoints (AfterEachIterationBase env self).2.log =
      evaluationPoints self.log ++
        (if self.m_ShowExactMetricValue = true ∧
            GetAdvancedMetricImageSampler self ≠ none
         then [env.currentPosition] else []) := by
  obtain ⟨g1, g2, g3⟩ := GetExactValue_keeps env self env.currentPosition
  obtain ⟨u1, u2⟩ := AfterEachIterationBase_unfold env self
  cases hflag : self.m_ShowExactMetricValue with
  | false =>
    rw [u2 hflag]
    simp [hflag]
  | true =>
    rw [u1 hflag]
    rw [hflag] at g1
    cases hres : GetExactValue env self env.currentPosition with
    | mk result after =>
      rw [hres] at g1 g2 g3
      cases result with
      | error e =>
        refine ⟨g1, g2, ?_⟩
        simp only [g3]
        by_cases hn : GetAdvancedMetricImageSampler self = none <;> simp [hn]
      | ok value =>
        refine ⟨g1, g2, ?_⟩
        simp only [MetricBase.emit, evaluationPoints_append, g3,
          evaluationPoints]
        by_cases hn : GetAdvancedMetricImageSampler self = none <;> simp [hn]

theorem SelectNewSamples_keeps (self : MetricBase) :
    (SelectNewSamples self).m_ShowExactMetricValue =
      self.m_ShowExactMetricValue ∧
    (SelectNewSamples self).componentLabel = self.componentLabel := by
  unfold SelectNewSamples
  split <;> exact ⟨rfl, rfl⟩

/-- No call between two set-ups changes the reporting flag or the component
label. -/
theorem runCalls_keeps (calls : List MetricCall) : ∀ self : MetricBase,
    (runCalls calls self).m_ShowExactMetricValue =
      self.m_ShowExactMetricValue ∧
    (runCalls calls self).componentLabel = self.componentLabel := by
  induction calls with
  | nil => intro self; exact ⟨rfl, rfl⟩
  | cons call calls ih =>
    intro self
    obtain ⟨i1, i2⟩ := ih (call.run self)
    have hstep : (call.run self).m_ShowExactMetricValue =
        self.m_ShowExactMetricValue ∧
        (call.run self).componentLabel = self.componentLabel := by
      cases call with
      | AfterEachIterationBase env =>
        exact ⟨(AfterEachIterationBase_keeps env self).1,
          (AfterEachIterationBase_keeps env self).2.1⟩
      | SelectNewSamples => exact SelectNewSamples_keeps self
      | GetExactValue env parameters =>
        exact ⟨(GetExactValue_keeps env self parameters).1,
          (GetExactValue_keeps env self parameters).2.1⟩
    simp only [runCalls]
    exact ⟨i1.trans hstep.1, i2.trans hstep.2⟩

/-- C19 (opt-in exact value): let the metric be set up by
`BeforeEachResolutionBase` and let any calls of `AfterEachIterationBase`,
`SelectNewSamples` and `GetExactValue` have followed; `metric` is the metric
then. When the configuration had `ShowExactMetricValue` true for the metric at
the level of the set-up, a call of `AfterEachIterationBase` is one call of
`GetExactValue` at the optimizer's current position: the metric is evaluated
once, at that position, when it exposes a sampler (and not at all when it
exposes none, where the value is 0), and the value returned is written to the
column named `Exact` followed by the component label, as the last output of
the call. When the entry was false or missing, the call leaves the metric as
it is: no call of `GetExactValue`, no evaluation, no output. -/
theorem AfterEachIterationBase_exact_value (env current : MetricEnv)
    (self metric : MetricBase) (calls : List MetricCall)
    (hmetric : metric = runCalls calls (BeforeEachResolutionBase env self)) :
    (env.boolParameter "ShowExactMetricValue" self.componentLabel
        env.currentLevel 0 = some true →
      AfterEachIterationBase current metric =
        (match GetExactValue current metric current.currentPosition with
        | (Except.error e, after) => (some e, after)
        | (Except.ok value, after) =>
          (none, after.emit (MetricEvent.xoutIteration
            ("Exact" ++ self.componentLabel) value))) ∧
      evaluationPoints (AfterEachIterationBase current metric).2.log =
        evaluationPoints metric.log ++
          (if GetAdvancedMetricImageSampler metric = none then []
           else [current.currentPosition]) ∧
      (∀ value,
        (GetExactValue current metric current.currentPosition).1 =
          Except.ok value →
        (AfterEachIterationBase current metric).1 = none ∧
        (AfterEachIterationBase current metric).2.log.getLast? =
          some (MetricEvent.xoutIteration ("Exact" ++ self.componentLabel)
            value)) ∧
      (∀ s value, GetAdvancedMetricImageSampler metric = some s →
        (metric.heap s).isFullSampler = true →
        current.GetValue metric current.currentPosition = Except.ok value →
        (AfterEachIterationBase current metric).2.log =
          metric.log ++
            [MetricEvent.GetValue (some s) current.currentPosition,
             MetricEvent.xoutIteration ("Exact" ++ self.componentLabel)
               value]) ∧
      (GetAdvancedMetricImageSampler metric = none →
        (AfterEachIterationBase current metric).2.log =
          metric.log ++
            [MetricEvent.xoutIteration ("Exact" ++ self.componentLabel) 0])) ∧
    (env.boolParameter "ShowExactMetricValue" self.componentLabel
        env.currentLevel 0 ≠ some true →
      AfterEachIterationBase current metric = (none, metric)) := by
  obtain ⟨hshow, hlabel⟩ := BeforeEachResolutionBase_show env self
  obtain ⟨r1, r2⟩ := runCalls_keeps calls (BeforeEachResolutionBase env self)
  rw [← hmetric] at r1 r2
  have hlab : metric.componentLabel = self.componentLabel := r2.trans hlabel
  have hflag : metric.m_ShowExactMetricValue =
      ReadParameter false (env.boolParameter "ShowExactMetricValue"
        self.componentLabel env.currentLevel 0) := r1.trans hshow
  obtain ⟨u1, u2⟩ := AfterEachIterationBase_unfold current metric
  obtain ⟨a1, a2, a3⟩ := AfterEachIterationBase_keeps current metric
  constructor
  · intro htrue
    have hon : metric.m_ShowExactMetricValue = true := by
      rw [hflag, htrue]; rfl
    have hunf := u1 hon
    rw [hlab] at hunf
    refine ⟨hunf, ?_, ?_, ?_, ?_⟩
    · rw [a3]
      by_cases hn : GetAdvancedMetricImageSampler metric = none <;>
        simp [hn, hon]
    · intro value hval
      rw [hunf]
      cases hres : GetExactValue current metric current.currentPosition with
      | mk result after =>
        rw [hres] at hval
        simp only at hval
        subst hval
        simp [MetricBase.emit]
    · intro s value hs hfull hvalue
      obtain ⟨_, _, himg⟩ := sampler_of_exposed metric s hs
      have hval : GetExactValue current metric current.currentPosition =
          (current.GetValue metric current.currentPosition,
            metric.emit
              (MetricEvent.GetValue (some s) current.currentPosition)) := by
        unfold GetExactValue
        simp only [hs, hfull, if_true, himg]
      rw [hunf, hval, hvalue]
      simp [MetricBase.emit]
    · intro hn
      have hval : GetExactValue current metric current.currentPosition =
          (Except.ok 0, metric) := by
        unfold GetExactValue
        rw [hn]
      rw [hunf, hval]
      simp [MetricBase.emit]
  · intro hne
    have hoff : metric.m_ShowExactMetricValue = false := by
      rw [hflag]
      unfold ReadParameter
      split
      · rename_i v hv
        cases v
        · rfl
        · exact absurd hv hne
      · rfl
    exact u2 hoff

theorem AfterEachIterationBase_exact_value_witness :
    ratioEnv.boolParameter "ShowExactMetricValue" exampleMetric.componentLabel
      ratioEnv.currentLevel 0 = some true ∧
    (AfterEachIterationBase ratioEnv
      (runCalls [MetricCall.AfterEachIterationBase ratioEnv,
          MetricCall.SelectNewSamples]
        (BeforeEachResolutionBase ratioEnv exampleMetric))).1 = none ∧
    evaluationPoints (AfterEachIterationBase ratioEnv
      (runCalls [MetricCall.AfterEachIterationBase ratioEnv,
          MetricCall.SelectNewSamples]
        (BeforeEachResolutionBase ratioEnv exampleMetric))).2.log =
      [[1, 2], [1, 2]] ∧
    (AfterEachIterationBase ratioEnv
      (runCalls [MetricCall.AfterEachIterationBase ratioEnv,
          MetricCall.SelectNewSamples]
        (BeforeEachResolutionBase ratioEnv exampleMetric))).2.log.getLast? =
        some (MetricEvent.xoutIteration "ExactMetric0" 3) ∧
    exampleEnv.boolParameter "ShowExactMetricValue"
      exampleMetric.componentLabel exampleEnv.currentLevel 0 ≠ some true ∧
    AfterEachIterationBase ratioEnv
      (runCalls [MetricCall.AfterEachIterationBase ratioEnv]
        (BeforeEachResolutionBase exampleEnv exampleMetric)) =
      (none, runCalls [MetricCall.AfterEachIterationBase ratioEnv]
        (BeforeEachResolutionBase exampleEnv exampleMetric)) := by
  have h := AfterEachIterationBase_exact_value ratioEnv ratioEnv exampleMetric
    _ [MetricCall.AfterEachIterationBase ratioEnv, MetricCall.SelectNewSamples]
    rfl
  have h2 := AfterEachIterationBase_exact_value exampleEnv ratioEnv
    exampleMetric _ [MetricCall.AfterEachIterationBase ratioEnv] rfl
  obtain ⟨_, k2, k3, _, _⟩ := h.1 rfl
  refine ⟨rfl, (k3 3 rfl).1, ?_, (k3 3 rfl).2, (by intro hc; cases hc),
    h2.2 (by intro hc; cases hc)⟩
  rw [k2]
  rfl

/-- C20 (selecting new samples): when the metric exposes an active sampler
`s`, `SelectNewSamples` calls `SelectNewSamplesOnUpdate` on `s`, once, and on
no other sampler, and leaves the installed sampler as it is; when the metric
exposes none (it is not an advanced metric, does not use an image sampler, or
its image sampler is null), `SelectNewSamples` only writes a warning: the
installed sampler, the exact metric sampler and all sampler objects stay as
they are. -/
theorem SelectNewSamples_asks_active_sampler (self : MetricBase) :
    (∀ s, GetAdvancedMetricImageSampler self = some s →
      (SelectNewSamples self).log =
        self.log ++ [MetricEvent.SelectNewSamplesOnUpdate s] ∧
      ((SelectNewSamples self).heap s).selectNewSamplesOnUpdate =
        (self.heap s).selectNewSamplesOnUpdate + 1 ∧
      (∀ t, t ≠ s → (SelectNewSamples self).heap t = self.heap t) ∧
      (SelectNewSamples self).imageSampler = self.imageSampler ∧
      (SelectNewSamples self).m_ExactMetricSampler =
        self.m_ExactMetricSampler) ∧
    ((self.isAdvancedMetric = false ∨ self.useImageSampler = false ∨
        self.imageSampler = none) →
      (∃ msg, (SelectNewSamples self).log =
        self.log ++ [MetricEvent.xoutWarning msg]) ∧
      (SelectNewSamples self).heap = self.heap ∧
      (SelectNewSamples self).imageSampler = self.imageSampler ∧
      (SelectNewSamples self).useImageSampler = self.useImageSampler ∧
      (SelectNewSamples self).m_ExactMetricSampler =
        self.m_ExactMetricSampler) := by
  constructor
  · intro s hs
    refine ⟨?_, ?_, ?_, ?_, ?_⟩
    · unfold SelectNewSamples
      simp only [hs, MetricBase.emit]
    · unfold SelectNewSamples
      simp only [hs, MetricBase.emit]
      simp
    · intro t ht
      unfold SelectNewSamples
      simp only [hs, MetricBase.emit]
      simp [Function.update_noteq ht]
    · unfold SelectNewSamples
      simp only [hs, MetricBase.emit]
    · unfold SelectNewSamples
      simp only [hs, MetricBase.emit]
  · intro h
    unfold SelectNewSamples
    rw [GetAdvancedMetricImageSampler_none self h]
    exact ⟨⟨_, rfl⟩, rfl, rfl, rfl, rfl⟩

theorem SelectNewSamples_asks_active_sampler_witness :
    GetAdvancedMetricImageSampler exampleMetric = some 0 ∧
    (SelectNewSamples exampleMetric).log =
      [MetricEvent.SelectNewSamplesOnUpdate 0] ∧
    ((SelectNewSamples exampleMetric).heap 0).selectNewSamplesOnUpdate = 1 ∧
    (plainMetric.isAdvancedMetric = false ∨
      plainMetric.useImageSampler = false ∨ plainMetric.imageSampler = none) ∧
    (SelectNewSamples plainMetric).heap = plainMetric.heap :=
  ⟨rfl,
    ((SelectNewSamples_asks_active_sampler exampleMetric).1 0 rfl).1,
    ((SelectNewSamples_asks_active_sampler exampleMetric).1 0 rfl).2.1,
    Or.inl rfl,
    ((SelectNewSamples_asks_active_sampler plainMetric).2 (Or.inl rfl)).2.1⟩

/-! ## Further lemmas on the argument map and on parsing -/

theorem mapCount_append_ne (m : ArgumentMapType) (k k' v : String)
    (h : k' ≠ k) : mapCount (m ++ [(k', v)]) k = mapCount m k := by
  induction m with
  | nil => simp [mapCount, h]
  | cons e m ih =>
    by_cases he : e.1 = k
    · simp [mapCount, he]
    · simp [mapCount, he, ih]

theorem mapFind_append_ne (m : ArgumentMapType) (k k' v : String)
    (h : k' ≠ k) : mapFind (m ++ [(k', v)]) k = mapFind m k := by
  induction m with
  | nil => simp [mapFind, h]
  | cons e m ih =>
    by_cases he : e.1 = k
    · simp [mapFind, he]
    · simp [mapFind, he, ih]

theorem mapCount_mapInsert_ne (m : ArgumentMapType) (k k' v : String)
    (h : k' ≠ k) : mapCount (mapInsert m k' v) k = mapCount m k := by
  unfold mapInsert
  split
  · exact mapCount_append_ne m k k' v h
  · rfl

theorem mapFind_mapInsert_ne (m : ArgumentMapType) (k k' v : String)
    (h : k' ≠ k) : mapFind (mapInsert m k' v) k = mapFind m k := by
  unfold mapInsert
  split
  · exact mapFind_append_ne m k k' v h
  · rfl

theorem mapFind_mapInsert_new (m : ArgumentMapType) (k v : String)
    (h : mapCount m k = 0) : mapFind (mapInsert m k v) k = some v := by
  unfold mapInsert
  rw [if_pos h]
  exact mapFind_append_new m k v h

theorem mapFind_of_count_zero (m : ArgumentMapType) (k : String)
    (h : mapCount m k = 0) : mapFind m k = none := by
  induction m with
  | nil => rfl
  | cons e m ih =>
    by_cases he : e.1 = k
    · simp [mapCount, he] at h
    · simp only [mapCount, he, if_false] at h
      simp [mapFind, he, ih h]

theorem parseStep_argMap_p (st : ParseState) (value : String) :
    (parseStep st "-p" value).argMap =
      mapInsert st.argMap
        ("-p(" ++ toString (st.nrOfParameterFiles + 1) ++ ")") value := by
  simp [parseStep]

theorem parseStep_argMap_other (st : ParseState) (key value : String)
    (h : key ≠ "-p") :
    (parseStep st key value).argMap =
      if mapCount st.argMap key = 0 then
        mapInsert st.argMap key
          (if key = "-out" then appendSlash value else value)
      else st.argMap := by
  unfold parseStep
  simp only [h, if_false]
  by_cases ho : key = "-out" <;> simp only [ho, if_true, if_false] <;>
    split <;> rfl

/-- One step of the parsing loop, seen from a key `k` other than `-p` and
other than the keys `-p(n)`: the entry of `k` is written by the first pair
with key `k` and by nothing else. -/
theorem parseStep_find (k : String) (hp : k ≠ "-p")
    (hform : ∀ n : Nat, k ≠ "-p(" ++ toString n ++ ")")
    (st : ParseState) (key value : String) :
    mapFind (parseStep st key value).argMap k =
      if key = k ∧ mapCount st.argMap k = 0 then
        some (if k = "-out" then appendSlash value else value)
      else mapFind st.argMap k := by
  by_cases h1 : key = "-p"
  · rw [h1, parseStep_argMap_p,
      mapFind_mapInsert_ne _ _ _ _ (fun h => hform _ h.symm)]
    have : ¬ ("-p" = k ∧ mapCount st.argMap k = 0) := fun h => hp h.1.symm
    rw [if_neg this]
  · rw [parseStep_argMap_other st key value h1]
    by_cases h2 : key = k
    · subst h2
      by_cases h3 : mapCount st.argMap key = 0
      · simp only [h3, if_true, and_self]
        exact mapFind_mapInsert_new _ _ _ h3
      · simp only [h3, if_false, and_false]
    · simp only [h2, false_and, if_false]
      split
      · exact mapFind_mapInsert_ne _ _ _ _ h2
      · rfl

theorem mapCount_mapInsert_self (m : ArgumentMapType) (k v : String) :
    mapCount (mapInsert m k v) k ≠ 0 := by
  intro h
  by_cases h0 : mapCount m k = 0
  · have := mapFind_mapInsert_new m k v h0
    rw [mapFind_of_count_zero _ _ h] at this
    cases this
  · unfold mapInsert at h
    rw [if_neg h0] at h
    exact h0 h

theorem parseStep_count (k : String) (hp : k ≠ "-p")
    (hform : ∀ n : Nat, k ≠ "-p(" ++ toString n ++ ")")
    (st : ParseState) (key value : String) :
    mapCount (parseStep st key value).argMap k = 0 ↔
      (mapCount st.argMap k = 0 ∧ key ≠ k) := by
  by_cases h1 : key = "-p"
  · rw [h1, parseStep_argMap_p,
      mapCount_mapInsert_ne _ _ _ _ (fun h => hform _ h.symm)]
    exact ⟨fun h => ⟨h, fun h' => hp h'.symm⟩, fun h => h.1⟩
  · rw [parseStep_argMap_other st key value h1]
    by_cases h2 : key = k
    · subst h2
      by_cases h3 : mapCount st.argMap key = 0
      · simp only [h3, if_true]
        exact ⟨fun h => absurd h (mapCount_mapInsert_self _ _ _),
          fun h => absurd rfl h.2⟩
      · rw [if_neg h3]
        exact ⟨fun h => absurd h h3, fun h => h.1⟩
    · split
      · rw [mapCount_mapInsert_ne _ _ _ _ h2]
        exact ⟨fun h => ⟨h, h2⟩, fun h => h.1⟩
      · exact ⟨fun h => ⟨h, h2⟩, fun h => h.1⟩

/-- The entry of a key `k` other than `-p` and the keys `-p(n)` after the
parsing loop: the entry it had before, and otherwise the value of the first
pair with key `k`. -/
theorem parseArgs_find (k : String) (hp : k ≠ "-p")
    (hform : ∀ n : Nat, k ≠ "-p(" ++ toString n ++ ")")
    (args : List String) : ∀ st : ParseState,
    mapFind (parseArgs args st).argMap k =
      if mapCount st.argMap k = 0 then
        (keyValues args k).head?.map
          (fun v => if k = "-out" then appendSlash v else v)
      else mapFind st.argMap k := by
  induction args using args_induction with
  | hnil =>
    intro st
    simp only [parseArgs, keyValues, argPairs, List.filter_nil, List.map_nil,
      List.head?_nil, Option.map_none']
    split
    · rename_i h; exact mapFind_of_count_zero _ _ h
    · rfl
  | hone a =>
    intro st
    simp only [parseArgs, keyValues, argPairs, List.filter_nil, List.map_nil,
      List.head?_nil, Option.map_none']
    split
    · rename_i h; exact mapFind_of_count_zero _ _ h
    · rfl
  | hstep key value rest ih =>
    intro st
    rw [parseArgs, ih, keyValues_cons]
    have hc := parseStep_count k hp hform st key value
    have hf := parseStep_find k hp hform st key value
    by_cases h0 : mapCount st.argMap k = 0
    · by_cases h2 : key = k
      · have hne : mapCount (parseStep st key value).argMap k ≠ 0 :=
          fun h => (hc.mp h).2 h2
        rw [if_neg hne, hf, if_pos ⟨h2, h0⟩, if_pos h0, if_pos h2]
        rfl
      · have hz : mapCount (parseStep st key value).argMap k = 0 :=
          hc.mpr ⟨h0, h2⟩
        rw [if_pos hz, if_pos h0, if_neg h2]
        rfl
    · have hne : mapCount (parseStep st key value).argMap k ≠ 0 :=
        fun h => h0 (hc.mp h).1
      rw [if_neg hne, hf, if_neg (fun h => h0 h.2), if_neg h0]

theorem parseArgs_append (before : List String) :
    ∀ (rest : List String) (st : ParseState), before.length % 2 = 0 →
      parseArgs (before ++ rest) st = parseArgs rest (parseArgs before st) := by
  induction before using args_induction with
  | hnil => intro rest st _; simp [parseArgs]
  | hone a => intro rest st h; simp at h
  | hstep key value tail ih =>
    intro rest st h
    have h' : tail.length % 2 = 0 := by
      simp only [List.length_cons] at h
      omega
    simp only [List.cons_append, parseArgs]
    exact ih rest _ h'

/-- A pair whose key has an entry already leaves argument map, number of
parameter files and queue as they are. -/
theorem parseStep_duplicate (st : ParseState) (key value : String)
    (hp : key ≠ "-p") (h : mapCount st.argMap key ≠ 0) :
    (parseStep st key value).argMap = st.argMap ∧
    (parseStep st key value).nrOfParameterFiles = st.nrOfParameterFiles ∧
    (parseStep st key value).parameterFileList = st.parameterFileList := by
  refine ⟨?_, ?_, ?_⟩
  · rw [parseStep_argMap_other st key value hp, if_neg h]
  · rw [parseStep_nr, if_neg hp]; rfl
  · rw [parseStep_queue, if_neg hp]; simp

theorem mapCount_ne_zero_of_find (m : ArgumentMapType) (k v : String)
    (h : mapFind m k = some v) : mapCount m k ≠ 0 := by
  intro h0
  rw [mapFind_of_count_zero m k h0] at h
  cases h

/-! ## The claims on the parsing of the command line -/

/-- C13 (recording of repeated `-p`), evaluated where the code departs from
the claim: for the command line `elastix -p(1) x -p a.txt -out out` the first
(and only) `-p` has the value `a.txt`, but the argument map after parsing
holds `x` under `-p(1)`: `insert` on line 85 does not replace the entry that
the earlier pair `-p(1) x` made on line 106. -/
theorem parseArgs_p_record_blocked :
    keyValues ["-p(1)", "x", "-p", "a.txt", "-out", "out"] "-p" = ["a.txt"] ∧
    mapFind (argMapAfterParsing "elastix"
      ["-p(1)", "x", "-p", "a.txt", "-out", "out"]) "-p(1)" = some "x" ∧
    mapFind (parseArgs ["-p(1)", "x", "-p", "a.txt", "-out", "out"]
      ParseState.init).argMap "-p(1)" = some "x" := by
  decide

/-- C14 (duplicate keys, first occurrence wins): for a key other than `-p`
and not of the form `-p(n)` that occurs as a key, with `first` the value of
its first occurrence, the argument map after parsing holds `first` for the
key (with the `/` appended when the key is `-out`); and at every later
occurrence of the key the pair leaves the argument map, the number of
parameter files and their queue as they are, and the parsing loop goes on with
the arguments after it. -/
theorem parseArgs_first_occurrence_wins (argv0 : String) (args : List String)
    (key first : String) (later : List String)
    (hp : key ≠ "-p") (hform : ∀ n : Nat, key ≠ "-p(" ++ toString n ++ ")")
    (hocc : keyValues args key = first :: later) :
    mapFind (argMapAfterParsing argv0 args) key =
      some (if key = "-out" then appendSlash first else first) ∧
    mapFind (parseArgs args ParseState.init).argMap key =
      some (if key = "-out" then appendSlash first else first) ∧
    ∀ (before after : List String) (value : String),
      args = before ++ key :: value :: after → before.length % 2 = 0 →
      keyValues before key ≠ [] →
      (parseArgs (before ++ [key, value]) ParseState.init).argMap =
        (parseArgs before ParseState.init).argMap ∧
      (parseArgs (before ++ [key, value]) ParseState.init).nrOfParameterFiles =
        (parseArgs before ParseState.init).nrOfParameterFiles ∧
      (parseArgs (before ++ [key, value]) ParseState.init).parameterFileList =
        (parseArgs before ParseState.init).parameterFileList ∧
      parseArgs args ParseState.init =
        parseArgs after
          (parseArgs (before ++ [key, value]) ParseState.init) := by
  have hfind : mapFind (parseArgs args ParseState.init).argMap key =
      some (if key = "-out" then appendSlash first else first) := by
    rw [parseArgs_find key hp hform args ParseState.init, hocc]
    simp [ParseState.init, mapCount]
  refine ⟨?_, hfind, ?_⟩
  · unfold argMapAfterParsing
    by_cases ha : "-argv0" = key
    · have hc := mapCount_ne_zero_of_find _ _ _ hfind
      rw [← ha] at hc
      unfold mapInsert
      rw [if_neg hc]
      exact hfind
    · rw [mapFind_mapInsert_ne _ _ _ _ ha]
      exact hfind
  · intro before after value hargs heven hbefore
    have hb : ∃ v, mapFind (parseArgs before ParseState.init).argMap key =
        some v := by
      rw [parseArgs_find key hp hform before ParseState.init]
      cases hk : keyValues before key with
      | nil => exact absurd hk hbefore
      | cons a l => simp [ParseState.init, mapCount]
    obtain ⟨v, hv⟩ := hb
    have hc := mapCount_ne_zero_of_find _ _ _ hv
    have hstep : parseArgs (before ++ [key, value]) ParseState.init =
        parseStep (parseArgs before ParseState.init) key value := by
      rw [parseArgs_append before _ _ heven]
      simp [parseArgs]
    obtain ⟨d1, d2, d3⟩ := parseStep_duplicate
      (parseArgs before ParseState.init) key value hp hc
    rw [hstep]
    refine ⟨d1, d2, d3, ?_⟩
    rw [← hstep, hargs]
    have : before ++ key :: value :: after = (before ++ [key, value]) ++ after := by
      simp
    rw [this]
    apply parseArgs_append
    simp only [List.length_append, List.length_cons, List.length_nil]
    omega

theorem parseArgs_first_occurrence_wins_witness :
    "-f" ≠ "-p" ∧ (∀ n : Nat, "-f" ≠ "-p(" ++ toString n ++ ")") ∧
    keyValues ["-f", "a.mhd", "-f", "b.mhd", "-p", "a.txt", "-out", "out"]
      "-f" = ["a.mhd", "b.mhd"] ∧
    mapFind (argMapAfterParsing "elastix"
      ["-f", "a.mhd", "-f", "b.mhd", "-p", "a.txt", "-out", "out"]) "-f" =
        some "a.mhd" := by
  have hform : ∀ n : Nat, "-f" ≠ "-p(" ++ toString n ++ ")" := by
    intro n h
    have := congrArg String.length h
    simp only [String.length_append] at this
    have h2 : ("-f" : String).length = 2 := by decide
    have h3 : ("-p(" : String).length = 3 := by decide
    omega
  have h := parseArgs_first_occurrence_wins "elastix"
    ["-f", "a.mhd", "-f", "b.mhd", "-p", "a.txt", "-out", "out"] "-f"
    "a.mhd" ["b.mhd"] (by decide) hform (by decide)
  exact ⟨by decide, hform, by decide, h.1⟩

/-- C15 (a later duplicate `-out`), evaluated where the code departs from the
claim: for `elastix -p a.txt -out nowhere -out out`, in a world where `out/`
is a directory and `nowhere/` is not, `main` warns that the second `-out` is
ignored, yet checks `out/`, the value of the second `-out`, sets up the log
file `out/elastix.log` and runs the stage, whose argument map holds
`nowhere/`, the value of the first `-out`, under `-out`. -/
theorem main_checks_last_out :
    exampleWorld.FileIsDirectory "nowhere/" = false ∧
    (parseArgs ["-p", "a.txt", "-out", "nowhere", "-out", "out"]
      ParseState.init).outFolder = "out/" ∧
    (main exampleWorld "elastix"
      ["-p", "a.txt", "-out", "nowhere", "-out", "out"]).map
      (fun r => (r.returnValue, xoutSetups r.trace,
        (runInputs r.trace).map (fun inp => mapFind inp.argMap "-out"))) =
      some (0, ["out/elastix.log"], [some "nowhere/"]) := by
  decide

/-- C16 (normalisation of `-out`), evaluated where the code departs from the
claim: for the empty value, as in `elastix -p a.txt -out ""`, nothing is
appended: `find_last_of` returns `npos`, which is what `value.size() - 1` is
for the empty string, so the output folder that `main` records and stores in
the argument map is the empty string, which does not end with `/`. -/
theorem appendSlash_empty :
    find_last_of "" '/' = sizeMinusOne "" ∧
    appendSlash "" = "" ∧
    (parseArgs ["-p", "a.txt", "-out", ""] ParseState.init).outFolder = "" ∧
    mapFind (argMapAfterParsing "elastix" ["-p", "a.txt", "-out", ""]) "-out"
      = some "" := by
  decide

/-- C17 (implicit `-argv0`), evaluated where the code departs from the claim:
for `elastix -argv0 elsewhere -p a.txt -out out` the argument map after
parsing, and the one the stage is run with, hold `elsewhere` under `-argv0`
and not the program's invocation path `elastix`: `insert` on line 121 does not
replace the entry made for the pair `-argv0 elsewhere`. -/
theorem argv0_entry_blocked :
    mapFind (argMapAfterParsing "elastix"
      ["-argv0", "elsewhere", "-p", "a.txt", "-out", "out"]) "-argv0" =
        some "elsewhere" ∧
    (main exampleWorld "elastix"
      ["-argv0", "elsewhere", "-p", "a.txt", "-out", "out"]).map
      (fun r => (runInputs r.trace).map
        (fun inp => mapFind inp.argMap "-argv0")) =
      some [some "elsewhere"] := by
  decide

/-! ## The normalisation of `-out` on non-empty values -/

theorem findLastFrom_snoc (c d : Char) (l : List Char) :
    ∀ i last, findLastFrom c (l ++ [d]) i last =
      if d = c then i + l.length else findLastFrom c l i last := by
  induction l with
  | nil => intro i last; simp [findLastFrom]
  | cons x l ih =>
    intro i last
    show findLastFrom c (l ++ [d]) (i + 1) (if x = c then i else last) = _
    rw [ih]
    simp only [findLastFrom, List.length_cons]
    split
    · omega
    · rfl

theorem findLastFrom_range (c : Char) (l : List Char) :
    ∀ i last, findLastFrom c l i last = last ∨
      (i ≤ findLastFrom c l i last ∧ findLastFrom c l i last < i + l.length) := by
  induction l with
  | nil => intro i last; simp [findLastFrom]
  | cons x l ih =>
    intro i last
    simp only [findLastFrom, List.length_cons]
    rcases ih (i + 1) (if x = c then i else last) with h | h
    · rw [h]
      split
      · right; omega
      · left; rfl
    · right; omega

/-- On a non-empty value (shorter than 2^64 characters, as every
`std::string` is) the normalisation does what the comment on line 91 says: the
value is kept when it ends with `/`, gets a `/` appended otherwise, and so
ends with `/` afterwards. -/
theorem appendSlash_nonempty (v : String) (hne : v ≠ "")
    (hlen : v.length < 2 ^ 64) :
    appendSlash v = (if v.data.getLast? = some '/' then v else v ++ "/") ∧
    (appendSlash v).data.getLast? = some '/' := by
  have hdata : v.data ≠ [] := by
    intro h
    apply hne
    exact String.ext h
  obtain ⟨l, d, hld⟩ : ∃ l d, v.data = l ++ [d] := by
    rcases List.eq_nil_or_concat v.data with h | ⟨l, d, h⟩
    · exact absurd h hdata
    · exact ⟨l, d, by simpa using h⟩
  have hl : v.length = l.length + 1 := by
    show v.data.length = _
    rw [hld]; simp
  have hsize : sizeMinusOne v = l.length := by
    unfold sizeMinusOne
    rw [hl]
    have : l.length + 1 + 2 ^ 64 - 1 = l.length + 2 ^ 64 := by omega
    rw [this, Nat.add_mod_right]
    apply Nat.mod_eq_of_lt
    omega
  have hfind : find_last_of v '/' =
      if d = '/' then l.length else findLastFrom '/' l 0 npos := by
    unfold find_last_of
    rw [hld, findLastFrom_snoc]
    simp
  have hlast : v.data.getLast? = some d := by
    rw [hld]; simp
  unfold appendSlash
  rw [hfind, hsize, hlast]
  by_cases hd : d = '/'
  · simp [hd, hlast]
  · have hneq : findLastFrom '/' l 0 npos ≠ l.length := by
      rcases findLastFrom_range '/' l 0 npos with h | h
      · rw [h]
        unfold npos
        omega
      · omega
    simp [hd, hneq, String.data_append]

/-! ## The entry for `-argv0` when the command line does not give it -/

theorem argv0_not_p_form : ∀ n : Nat, "-argv0" ≠ "-p(" ++ toString n ++ ")" := by
  intro n h
  have h1 := congrArg (fun s : String => s.data.take 2) h
  simp only [String.data_append] at h1
  simp at h1

/-- When no pair of the command line has the key `-argv0`, the argument map
after parsing holds the program's invocation path under `-argv0`. -/
theorem argv0_entry_without_key (argv0 : String) (args : List String)
    (h : keyValues args "-argv0" = []) :
    mapFind (argMapAfterParsing argv0 args) "-argv0" = some argv0 := by
  have hfind := parseArgs_find "-argv0" (by decide) argv0_not_p_form args
    ParseState.init
  rw [h] at hfind
  simp only [ParseState.init, mapCount, if_true, List.head?_nil,
    Option.map_none'] at hfind
  have hc : mapCount (parseArgs args ParseState.init).argMap "-argv0" = 0 := by
    by_contra hne
    have hstep : ∀ (m : ArgumentMapType) (k : String),
        mapFind m k = none → mapCount m k = 0 := by
      intro m k
      induction m with
      | nil => intro _; rfl
      | cons e m ih =>
        intro hm
        by_cases he : e.1 = k
        · simp [mapFind, he] at hm
        · simp only [mapFind, he, if_false] at hm
          simp [mapCount, he, ih hm]
    exact hne (hstep _ _ hfind)
  unfold argMapAfterParsing
  exact mapFind_mapInsert_new _ _ _ hc

/-! ## The default pyramid schedule -/

theorem scheduleRows_length (levels : Nat) : ∀ row : List Nat,
    (scheduleRows levels row).length = levels := by
  induction levels with
  | zero => intro row; rfl
  | succ n ih => intro row; simp [scheduleRows, ih]

theorem halveRow_length (row : List Nat) : (halveRow row).length = row.length := by
  simp [halveRow]

theorem scheduleRows_columns (levels : Nat) : ∀ (row : List Nat) (r : List Nat),
    r ∈ scheduleRows levels row → r.length = row.length := by
  induction levels with
  | zero => intro row r h; simp [scheduleRows] at h
  | succ n ih =>
    intro row r h
    simp only [scheduleRows, List.mem_cons] at h
    rcases h with h | h
    · rw [h]
    · rw [ih _ r h, halveRow_length]

theorem scheduleRows_zero (levels : Nat) (row : List Nat) (h : 1 ≤ levels) :
    (scheduleRows levels row)[0]? = some row := by
  cases levels with
  | zero => omega
  | succ n => simp [scheduleRows]

theorem scheduleRows_succ (levels : Nat) : ∀ (row : List Nat) (k : Nat)
    (prev : List Nat), (scheduleRows levels row)[k]? = some prev →
    k + 1 < levels →
    (scheduleRows levels row)[k + 1]? = some (halveRow prev) := by
  induction levels with
  | zero => intro row k prev _ hk; omega
  | succ n ih =>
    intro row k prev h hk
    cases k with
    | zero =>
      simp only [scheduleRows, List.getElem?_cons_zero, Option.some.injEq] at h
      subst h
      simp only [scheduleRows, List.getElem?_cons_succ]
      exact scheduleRows_zero n _ (by omega)
    | succ k =>
      simp only [scheduleRows, List.getElem?_cons_succ] at h ⊢
      exact ih _ k prev h (by omega)

theorem halveRow_replicate (dimension a : Nat) :
    halveRow (List.replicate dimension (2 ^ (a + 1))) =
      List.replicate dimension (2 ^ a) := by
  have h : max 1 (2 ^ (a + 1) / 2) = 2 ^ a := by
    have h1 : 2 ^ (a + 1) / 2 = 2 ^ a := by
      rw [Nat.pow_succ]; simp
    rw [h1]
    have : 1 ≤ 2 ^ a := Nat.one_le_two_pow
    omega
  simp [halveRow, h]

theorem scheduleRows_default (dimension : Nat) : ∀ (levels a k : Nat),
    k < levels → levels ≤ a + 1 →
    (scheduleRows levels (List.replicate dimension (2 ^ a)))[k]? =
      some (List.replicate dimension (2 ^ (a - k))) := by
  intro levels
  induction levels with
  | zero => intro a k hk; omega
  | succ n ih =>
    intro a k hk ha
    cases k with
    | zero => simp [scheduleRows]
    | succ k =>
      obtain ⟨b, rfl⟩ : ∃ b, a = b + 1 := ⟨a - 1, by omega⟩
      simp only [scheduleRows, List.getElem?_cons_succ, halveRow_replicate]
      rw [ih b k (by omega) (by omega)]
      congr 3
      omega

/-- C21 (default pyramid schedule), on the schedule builder as the spec
describes it: for `numberOfLevels ≥ 1` and every dimension (1 and more
included), with starting factors for every dimension or none, the default schedule has `numberOfLevels`
rows of `dimension` columns; row 0 holds the starting factors, or
2^(numberOfLevels-1) in every column when none are given; every later row is
`max(1, previous row / 2)` column by column; without starting factors row `k`
is 2^(numberOfLevels-1-k) in every column; and the two schedules of the
examples come out as stated. -/
theorem BuildDefault_schedule (numberOfLevels dimension : Nat)
    (startingFactors : Option (List Nat))
    (hlevels : 1 ≤ numberOfLevels)
    (hstart : ∀ factors, startingFactors = some factors →
      factors.length = dimension) :
    (BuildDefault numberOfLevels dimension startingFactors).length =
      numberOfLevels ∧
    (∀ row ∈ BuildDefault numberOfLevels dimension startingFactors,
      row.length = dimension) ∧
    (BuildDefault numberOfLevels dimension startingFactors)[0]? =
      some (match startingFactors with
        | some factors => factors
        | none => List.replicate dimension (2 ^ (numberOfLevels - 1))) ∧
    (∀ (k : Nat) (prev : List Nat),
      (BuildDefault numberOfLevels dimension startingFactors)[k]? = some prev →
      k + 1 < numberOfLevels →
      (BuildDefault numberOfLevels dimension startingFactors)[k + 1]? =
        some (prev.map (fun factor => max 1 (factor / 2)))) ∧
    (∀ k, k < numberOfLevels →
      (BuildDefault numberOfLevels dimension none)[k]? =
        some (List.replicate dimension (2 ^ (numberOfLevels - 1 - k)))) ∧
    BuildDefault 4 3 none = [[8, 8, 8], [4, 4, 4], [2, 2, 2], [1, 1, 1]] ∧
    BuildDefault 4 3 (some [8, 8, 4]) =
      [[8, 8, 4], [4, 4, 2], [2, 2, 1], [1, 1, 1]] := by
  refine ⟨scheduleRows_length _ _, ?_, scheduleRows_zero _ _ hlevels, ?_, ?_,
    by decide, by decide⟩
  · intro row hrow
    rw [scheduleRows_columns _ _ row hrow]
    cases hs : startingFactors with
    | none => simp
    | some factors => exact hstart factors hs
  · intro k prev hk hlt
    exact scheduleRows_succ _ _ k prev hk hlt
  · intro k hk
    exact scheduleRows_default dimension numberOfLevels (numberOfLevels - 1) k
      hk (by omega)

theorem BuildDefault_schedule_witness :
    1 ≤ 4 ∧
    (∀ factors, some [8, 8, 4] = some factors → factors.length = 3) ∧
    (BuildDefault 4 3 (some [8, 8, 4])).length = 4 ∧
    (∀ row ∈ BuildDefault 4 3 (some [8, 8, 4]), row.length = 3) ∧
    (BuildDefault 4 3 (some [8, 8, 4]))[0]? = some [8, 8, 4] := by
  have hstart : ∀ factors, some [8, 8, 4] = some factors →
      factors.length = 3 := by
    intro factors h
    cases h
    rfl
  have h := BuildDefault_schedule 4 3 (some [8, 8, 4]) (by decide) hstart
  exact ⟨by decide, hstart, h.1, h.2.1, h.2.2.1⟩

/-! ## The claims on informational invocations -/

/-- C23 (informational invocations): called without arguments, or with the
single argument `-help`, `--help` or `--version`, `main` returns 0 and does
nothing but write the usage hint, the help text or the version line: no
message of the parsing loop or of the checks, no call of `xoutSetup`, no stage
object and no call of `Run`. -/
theorem main_informational (w : World) (argv0 : String) (args : List String)
    (h : args = [] ∨ args = ["-help"] ∨ args = ["--help"] ∨
      args = ["--version"]) :
    ∃ r, main w argv0 args = some r ∧ r.returnValue = 0 ∧
      (r.trace = [Event.cout usageHint] ∨ r.trace = [Event.PrintHelp] ∨
        r.trace = [Event.cout "elastix version: "]) ∧
      xoutSetups r.trace = [] ∧ runInputs r.trace = [] ∧
      pushBacks r.trace = 0 := by
  rcases h with h | h | h | h
  · subst h
    exact ⟨⟨0, [Event.cout usageHint]⟩, rfl, rfl, Or.inl rfl, rfl, rfl, rfl⟩
  · subst h
    exact ⟨⟨0, [Event.PrintHelp]⟩, rfl, rfl, Or.inr (Or.inl rfl), rfl, rfl, rfl⟩
  · subst h
    exact ⟨⟨0, [Event.PrintHelp]⟩, rfl, rfl, Or.inr (Or.inl rfl), rfl, rfl, rfl⟩
  · subst h
    exact ⟨⟨0, [Event.cout "elastix version: "]⟩, rfl, rfl,
      Or.inr (Or.inr rfl), rfl, rfl, rfl⟩

theorem main_informational_witness :
    (["--version"] = ([] : List String) ∨ ["--version"] = ["-help"] ∨
      ["--version"] = ["--help"] ∨ ["--version"] = ["--version"]) ∧
    ∃ r, main exampleWorld "elastix" ["--version"] = some r ∧
      r.returnValue = 0 ∧
      (r.trace = [Event.cout usageHint] ∨ r.trace = [Event.PrintHelp] ∨
        r.trace = [Event.cout "elastix version: "]) ∧
      xoutSetups r.trace = [] ∧ runInputs r.trace = [] ∧
      pushBacks r.trace = 0 :=
  ⟨Or.inr (Or.inr (Or.inr rfl)),
    main_informational exampleWorld "elastix" ["--version"]
      (Or.inr (Or.inr (Or.inr rfl)))⟩

/-! ## Lemmas on the vector of stage objects along a trace -/

theorem alive_append (xs ys : List (Option Nat)) :
    alive (xs ++ ys) = alive xs + alive ys := by
  simp [alive, List.filter_append]

theorem alive_set_none (v : List (Option Nat)) : ∀ i : Nat,
    alive (v.set i none) ≤ alive v := by
  induction v with
  | nil => intro i; simp [alive]
  | cons x xs ih =>
    intro i
    cases i with
    | zero =>
      cases x <;> simp [alive, List.filter_cons]
    | succ i =>
      have := ih i
      cases x <;> simp [alive, List.filter_cons] at this ⊢ <;> omega

theorem set_last_none (v : List (Option Nat)) (x : Option Nat) : ∀ i : Nat,
    v.length = i → (v ++ [x]).set i none = v ++ [none] := by
  induction v with
  | nil => intro i h; subst h; rfl
  | cons y ys ih =>
    intro i h
    cases i with
    | zero => simp at h
    | succ i =>
      simp only [List.length_cons, Nat.add_right_cancel_iff] at h
      simp [ih i h]

theorem elasticesAfter_append (xs ys : List Event) : ∀ v : List (Option Nat),
    elasticesAfter v (xs ++ ys) = elasticesAfter (elasticesAfter v xs) ys := by
  induction xs with
  | nil => intro v; rfl
  | cons e es ih => intro v; simp [elasticesAfter, ih]

theorem oneStageAlive_last (t : List Event) : ∀ v : List (Option Nat),
    oneStageAlive v t → alive (elasticesAfter v t) ≤ 1 := by
  induction t with
  | nil => intro v h; exact h
  | cons e es ih => intro v h; exact ih _ h.2.2

theorem oneStageAlive_append (xs ys : List Event) : ∀ v : List (Option Nat),
    oneStageAlive v xs → oneStageAlive (elasticesAfter v xs) ys →
    oneStageAlive v (xs ++ ys) := by
  induction xs with
  | nil => intro v _ h; exact h
  | cons e es ih =>
    intro v h1 h2
    exact ⟨h1.1, h1.2.1, ih _ h1.2.2 h2⟩

theorem unloads_append (xs ys : List Event) :
    unloads (xs ++ ys) = unloads xs + unloads ys := by
  induction xs with
  | nil => simp [unloads]
  | cons e es ih => cases e <;> simp [unloads, ih]; omega

theorem releases_append (xs ys : List Event) :
    releases (xs ++ ys) = releases xs ++ releases ys := by
  induction xs with
  | nil => simp [releases]
  | cons e es ih => cases e <;> simp [releases, ih]

/-- Events of parsing and set-up leave the vector alone and unload nothing. -/
theorem setupEvents_quiet (xs : List Event)
    (h : ∀ e ∈ xs, isSetupEvent e = true) :
    (∀ v, elasticesAfter v xs = v) ∧
    (∀ v, alive v ≤ 1 → oneStageAlive v xs) ∧
    unloads xs = 0 ∧ releases xs = [] := by
  induction xs with
  | nil => exact ⟨fun _ => rfl, fun _ hv => hv, rfl, rfl⟩
  | cons e es ih =>
    have he := h e (List.mem_cons_self _ _)
    obtain ⟨i1, i2, i3, i4⟩ := ih (fun x hx => h x (List.mem_cons_of_mem _ hx))
    cases e <;> simp [isSetupEvent] at he
    · refine ⟨fun v => ?_, fun v hv => ?_, ?_, ?_⟩
      · simp [elasticesAfter, stepElastices, i1]
      · exact ⟨hv, by simp [isPushBack, isUnload], i2 _ hv⟩
      · simp [unloads, i3]
      · simp [releases, i4]
    · refine ⟨fun v => ?_, fun v hv => ?_, ?_, ?_⟩
      · simp [elasticesAfter, stepElastices, i1]
      · exact ⟨hv, by simp [isPushBack, isUnload], i2 _ hv⟩
      · simp [unloads, i3]
      · simp [releases, i4]

theorem onlyCerr_setup (xs : List Event) (h : onlyCerr xs = true) :
    ∀ e ∈ xs, isSetupEvent e = true := by
  induction xs with
  | nil => intro e he; simp at he
  | cons x xs ih =>
    cases x <;> simp [onlyCerr] at h
    intro e he
    rcases List.mem_cons.mp he with h1 | h1
    · rw [h1]; rfl
    · exact ih h e h1

theorem checkSetup_setup (w : World) (st : ParseState) :
    ∀ e ∈ (checkSetup w st).2, isSetupEvent e = true := by
  unfold checkSetup
  by_cases hn : st.nrOfParameterFiles = 0 <;>
  by_cases ho : st.outFolderPresent = true <;>
  by_cases hd : w.FileIsDirectory st.outFolder = true <;>
  by_cases hx : w.xoutSetup (st.outFolder ++ "elastix.log") = 0 <;>
  simp [hn, ho, hd, hx, isSetupEvent]

/-- The clean-up after the loop, entered with all entries null: the entries
stay null, every stage object is released once more, and `UnloadComponents`
is called once, as the last event. -/
theorem finishMain_trace (n : Nat) (st : LoopState)
    (h0 : alive st.elastices = 0) :
    oneStageAlive st.elastices (finishMain n st).trace ∧
    unloads (finishMain n st).trace = 1 ∧
    (finishMain n st).trace.getLast? = some Event.UnloadComponents ∧
    releases (finishMain n st).trace = List.range n ∧
    (finishMain n st).returnValue = st.returndummy := by
  have key : ∀ (l : List Nat) (acc : List (Option Nat) × List Event),
      alive acc.1 = 0 → elasticesAfter st.elastices acc.2 = acc.1 →
      oneStageAlive st.elastices acc.2 → unloads acc.2 = 0 →
      alive (l.foldl (fun (acc : List (Option Nat) × List Event) i =>
          (acc.1.set i none, acc.2 ++ [Event.release i (acc.1.set i none)]))
          acc).1 = 0 ∧
      elasticesAfter st.elastices
        (l.foldl (fun (acc : List (Option Nat) × List Event) i =>
          (acc.1.set i none, acc.2 ++ [Event.release i (acc.1.set i none)]))
          acc).2 =
        (l.foldl (fun (acc : List (Option Nat) × List Event) i =>
          (acc.1.set i none, acc.2 ++ [Event.release i (acc.1.set i none)]))
          acc).1 ∧
      oneStageAlive st.elastices
        (l.foldl (fun (acc : List (Option Nat) × List Event) i =>
          (acc.1.set i none, acc.2 ++ [Event.release i (acc.1.set i none)]))
          acc).2 ∧
      unloads (l.foldl (fun (acc : List (Option Nat) × List Event) i =>
          (acc.1.set i none, acc.2 ++ [Event.release i (acc.1.set i none)]))
          acc).2 = 0 ∧
      releases (l.foldl (fun (acc : List (Option Nat) × List Event) i =>
          (acc.1.set i none, acc.2 ++ [Event.release i (acc.1.set i none)]))
          acc).2 = releases acc.2 ++ l := by
    intro l
    induction l with
    | nil => intro acc a1 a2 a3 a4; simp [a1, a2, a3, a4]
    | cons i l ih =>
      intro acc a1 a2 a3 a4
      rw [List.foldl_cons]
      have hset : alive (acc.1.set i none) = 0 := by
        have := alive_set_none acc.1 i
        omega
      obtain ⟨b1, b2, b3, b4, b5⟩ := ih
        (acc.1.set i none, acc.2 ++ [Event.release i (acc.1.set i none)])
        hset
        (by simp [elasticesAfter_append, elasticesAfter, stepElastices])
        (by
          apply oneStageAlive_append _ _ _ a3
          rw [a2]
          refine ⟨by omega, by simp [isPushBack, isUnload], ?_⟩
          show alive (acc.1.set i none) ≤ 1
          omega)
        (by simp [unloads_append, a4, unloads])
      refine ⟨b1, b2, b3, b4, ?_⟩
      rw [b5]
      simp [releases_append, releases]
  obtain ⟨k1, k2, k3, k4, k5⟩ := key (List.range n) (st.elastices, []) h0 rfl
    (by show alive st.elastices ≤ 1; omega) rfl
  refine ⟨?_, ?_, ?_, ?_, rfl⟩ <;> simp only [finishMain]
  · apply oneStageAlive_append _ _ _ k3
    rw [k2]
    refine ⟨by omega, fun _ => k1, ?_⟩
    show alive _ ≤ 1
    simp only [stepElastices]
    omega
  · simp [unloads_append, k4, unloads]
  · simp
  · simp [releases_append, k5, releases]

/-! ## The trace of the registration loop -/

theorem getLast?_append_some {α : Type} (xs ys : List α) (a : α)
    (h : ys.getLast? = some a) : (xs ++ ys).getLast? = some a := by
  obtain ⟨zs, rfl⟩ := List.getLast?_eq_some_iff.mp h
  rw [← List.append_assoc]
  exact List.getLast?_concat _

/-- The vector discipline, the unloading and the releases along the trace of
the registration loop, entered at iteration `i` with `i` null entries. -/
theorem registrationLoop_trace (w : World) (n : Nat) :
    ∀ (todo i : Nat) (st : LoopState) (r : MainResult),
      alive st.elastices = 0 → st.elastices.length = i →
      registrationLoop w n todo i st = some r →
      oneStageAlive st.elastices r.trace ∧
      unloads r.trace ≤ 1 ∧
      ((∀ inp ∈ runInputs r.trace, (w.Run inp).returnCode = 0) →
        unloads r.trace = 1 ∧
        r.trace.getLast? = some Event.UnloadComponents ∧
        releases r.trace = List.range' i todo ++ List.range n ∧
        (runInputs r.trace).length = todo ∧
        r.returnValue = (if todo = 0 then st.returndummy else 0)) ∧
      ((∃ inp ∈ runInputs r.trace, (w.Run inp).returnCode ≠ 0) →
        unloads r.trace = 0 ∧ r.returnValue ≠ 0) := by
  intro todo
  induction todo with
  | zero =>
    intro i st r h0 _ hr
    simp only [registrationLoop, Option.some.injEq] at hr
    subst hr
    obtain ⟨f1, f2, f3, f4, f5⟩ := finishMain_trace n st h0
    obtain ⟨q1, _, _⟩ := finishMain_quiet n st
    refine ⟨f1, by omega, fun _ => ⟨f2, f3, ?_, ?_, ?_⟩, ?_⟩
    · simpa using f4
    · rw [q1]; rfl
    · simpa using f5
    · rintro ⟨inp, hin, _⟩
      rw [q1] at hin
      simp at hin
  | succ todo ih =>
    intro i st r h0 hlen hr
    match hq : st.parameterFileList with
    | [] =>
      simp [registrationLoop, hq] at hr
    | argPair :: rest =>
      have hpush : alive (st.elastices ++ [some i]) = 1 := by
        rw [alive_append, h0]; rfl
      by_cases hc : (w.Run (stageInput st i argPair)).returnCode = 0
      · simp only [registrationLoop, hq, hc, ne_eq, not_true_eq_false,
          if_false, Option.map_eq_some'] at hr
        obtain ⟨r', hr', hrr⟩ := hr
        have hnext : (afterStage (st.elastices ++ [some i]) i
            (stageInput st i argPair) (w.Run (stageInput st i argPair))
            rest).elastices = st.elastices ++ [none] := by
          simp only [afterStage]
          exact set_last_none _ _ i hlen
        have hnext0 : alive (afterStage (st.elastices ++ [some i]) i
            (stageInput st i argPair) (w.Run (stageInput st i argPair))
            rest).elastices = 0 := by
          rw [hnext, alive_append, h0]; rfl
        have hnextlen : (afterStage (st.elastices ++ [some i]) i
            (stageInput st i argPair) (w.Run (stageInput st i argPair))
            rest).elastices.length = i + 1 := by
          rw [hnext]; simp [hlen]
        obtain ⟨i1, i2, i3, i4⟩ := ih (i + 1) _ r' hnext0 hnextlen hr'
        subst hrr
        refine ⟨?_, ?_, ?_, ?_⟩
        · refine ⟨by omega, fun _ => h0, ?_⟩
          refine ⟨by simp only [stepElastices]; omega,
            by simp [isPushBack, isUnload], ?_⟩
          refine ⟨by simp only [stepElastices]; omega,
            by simp [isPushBack, isUnload], ?_⟩
          exact i1
        · simpa [unloads] using i2
        · intro hall
          have hall' : ∀ inp ∈ runInputs r'.trace,
              (w.Run inp).returnCode = 0 := by
            intro inp hin
            apply hall
            simp [runInputs, hin]
          obtain ⟨j1, j2, j3, j4, j5⟩ := i3 hall'
          refine ⟨by simpa [unloads] using j1, ?_, ?_, ?_, ?_⟩
          · exact getLast?_append_some _ _ _ j2
          · simp [releases, j3, List.range'_succ]
          · simp [runInputs, j4]
          · simp only [j5, afterStage, hc]
            simp
        · rintro ⟨inp, hin, hne⟩
          simp only [List.cons_append, List.nil_append, runInputs,
            List.mem_cons] at hin
          rcases hin with hin | hin
          · rw [hin] at hne
            exact absurd hc hne
          · obtain ⟨k1, k2⟩ := i4 ⟨inp, hin, hne⟩
            exact ⟨by simpa [unloads] using k1, k2⟩
      · simp only [registrationLoop, hq, hc, ne_eq, not_false_eq_true,
          if_true, Option.some.injEq] at hr
        subst hr
        refine ⟨?_, ?_, ?_, ?_⟩
        · refine ⟨by omega, fun _ => h0, ?_⟩
          refine ⟨by simp only [stepElastices]; omega,
            by simp [isPushBack, isUnload], ?_⟩
          refine ⟨by simp only [stepElastices]; omega,
            by simp [isPushBack, isUnload], ?_⟩
          show alive _ ≤ 1
          simp only [stepElastices]
          omega
        · simp [unloads]
        · intro hall
          have := hall (stageInput st i argPair) (by simp [runInputs])
          exact absurd this hc
        · intro _
          exact ⟨by simp [unloads], hc⟩

/-! ## The trace of `main` -/

theorem oneStageAlive_before (t : List Event) : ∀ v : List (Option Nat),
    oneStageAlive v t →
    (∀ p, ∀ s ∈ elasticesBefore p v t, alive s ≤ 1) ∧
    (∀ s ∈ elasticesBefore isPushBack v t, alive s = 0) ∧
    (∀ s ∈ elasticesBefore isUnload v t, alive s = 0) := by
  induction t with
  | nil => intro v _; simp [elasticesBefore]
  | cons e es ih =>
    intro v h
    obtain ⟨i1, i2, i3⟩ := ih _ h.2.2
    refine ⟨?_, ?_, ?_⟩
    · intro p s hs
      simp only [elasticesBefore, List.mem_append] at hs
      rcases hs with hs | hs
      · split at hs
        · simp only [List.mem_singleton] at hs
          rw [hs]; exact h.1
        · simp at hs
      · exact i1 p s hs
    · intro s hs
      simp only [elasticesBefore, List.mem_append] at hs
      rcases hs with hs | hs
      · split at hs
        · rename_i hp
          simp only [List.mem_singleton] at hs
          rw [hs]; exact h.2.1 (Or.inl hp)
        · simp at hs
      · exact i2 s hs
    · intro s hs
      simp only [elasticesBefore, List.mem_append] at hs
      rcases hs with hs | hs
      · split at hs
        · rename_i hp
          simp only [List.mem_singleton] at hs
          rw [hs]; exact h.2.1 (Or.inr hp)
        · simp at hs
      · exact i3 s hs

theorem setup_events (w : World) (args : List String) :
    ∀ e ∈ (parseArgs args ParseState.init).cerr ++
        (checkSetup w (parseArgs args ParseState.init)).2,
      isSetupEvent e = true := by
  intro e he
  rcases List.mem_append.mp he with h | h
  · exact onlyCerr_setup _ (parseArgs_cerr args ParseState.init rfl) e h
  · exact checkSetup_setup w _ e h

/-- The run of `main` for every command line: `main` returns; at most one
stage object is alive at any point; and `UnloadComponents` is called once, as
the last step, when the set-up passes and every stage returns 0, and not at
all otherwise. -/
theorem main_trace (w : World) (argv0 : String) (args : List String) :
    ∃ r, main w argv0 args = some r ∧
      oneStageAlive [] r.trace ∧
      unloads r.trace ≤ 1 ∧
      (args.length < 2 → unloads r.trace = 0) ∧
      ((checkSetup w (parseArgs args ParseState.init)).1 ≠ 0 →
        unloads r.trace = 0) ∧
      ((∃ inp ∈ runInputs r.trace, (w.Run inp).returnCode ≠ 0) →
        unloads r.trace = 0 ∧ r.returnValue ≠ 0) ∧
      (2 ≤ args.length →
        (checkSetup w (parseArgs args ParseState.init)).1 = 0 →
        (∀ inp ∈ runInputs r.trace, (w.Run inp).returnCode = 0) →
        unloads r.trace = 1 ∧
        r.trace.getLast? = some Event.UnloadComponents ∧
        releases r.trace =
          List.range (keyValues args "-p").length ++
            List.range (keyValues args "-p").length ∧
        (runInputs r.trace).length = (keyValues args "-p").length ∧
        r.returnValue = 0) := by
  by_cases hlen : 2 ≤ args.length
  · by_cases hchk : (checkSetup w (parseArgs args ParseState.init)).1 = 0
    · have hnr := parseArgs_nr args ParseState.init
      have hq := parseArgs_queue args ParseState.init
      simp only [ParseState.init, Nat.zero_add, List.nil_append] at hnr hq
      have hqlen : (LoopState.init
          (checkSetup w (parseArgs args ParseState.init)).1
          (mapInsert (parseArgs args ParseState.init).argMap "-argv0" argv0)
          (parseArgs args ParseState.init).parameterFileList
          ).parameterFileList.length =
          (parseArgs args ParseState.init).nrOfParameterFiles := by
        simp only [LoopState.init, ParseState.init]
        rw [hq, hnr]; simp
      obtain ⟨r', hr', hruns, _, _, _⟩ := registrationLoop_runs w
        (parseArgs args ParseState.init).nrOfParameterFiles _ 0 _ hqlen
      obtain ⟨t1, t2, t3, t4⟩ := registrationLoop_trace w
        (parseArgs args ParseState.init).nrOfParameterFiles _ 0 _ r'
        (by simp [LoopState.init, alive]) (by simp [LoopState.init]) hr'
      obtain ⟨s1, s2, s3, s4⟩ := setupEvents_quiet _ (setup_events w args)
      obtain ⟨c1, _, _⟩ := parse_cerr_quiet args
      obtain ⟨q1, _⟩ := checkSetup_quiet w (parseArgs args ParseState.init)
      have hrun : runInputs ((parseArgs args ParseState.init).cerr ++
          (checkSetup w (parseArgs args ParseState.init)).2 ++ r'.trace) =
          runInputs r'.trace := by
        simp [runInputs_append, c1, q1]
      have hnr' : (parseArgs args ParseState.init).nrOfParameterFiles =
          (keyValues args "-p").length := by
        simp only [ParseState.init]; exact hnr
      refine ⟨{ r' with trace := (parseArgs args ParseState.init).cerr ++
          (checkSetup w (parseArgs args ParseState.init)).2 ++ r'.trace },
        ?_, ?_, ?_, ?_, ?_, ?_, ?_⟩
      · rw [main_unfold w argv0 args hlen, if_neg (not_not.mpr hchk), hr']
        rfl
      · apply oneStageAlive_append _ _ _ (s2 [] (by simp [alive]))
        rw [s1]
        simpa [LoopState.init] using t1
      · simp only [unloads_append, s3, Nat.zero_add]
        exact t2
      · intro h; omega
      · intro h; exact absurd hchk h
      · rintro ⟨inp, hin, hne⟩
        simp only [hrun] at hin
        obtain ⟨u1, u2⟩ := t4 ⟨inp, hin, hne⟩
        exact ⟨by simp only [unloads_append, s3, Nat.zero_add]; exact u1, u2⟩
      · intro _ _ hall
        simp only [hrun] at hall ⊢
        obtain ⟨u1, u2, u3, u4, u5⟩ := t3 hall
        refine ⟨by simp only [unloads_append, s3, Nat.zero_add]; exact u1,
          getLast?_append_some _ _ _ u2, ?_, ?_, ?_⟩
        · simp only [releases_append, s4, List.nil_append, u3, hnr']
          simp [List.range_eq_range']
        · rw [u4, hnr']
        · rw [u5]
          simp [LoopState.init, hchk]
    · obtain ⟨s1, s2, s3, s4⟩ := setupEvents_quiet _ (setup_events w args)
      obtain ⟨c1, _, _⟩ := parse_cerr_quiet args
      obtain ⟨q1, _⟩ := checkSetup_quiet w (parseArgs args ParseState.init)
      refine ⟨{ returnValue := (checkSetup w (parseArgs args ParseState.init)).1
                trace := (parseArgs args ParseState.init).cerr ++
                  (checkSetup w (parseArgs args ParseState.init)).2 },
        ?_, s2 [] (by simp [alive]),
        Nat.le_trans (Nat.le_of_eq s3) (Nat.zero_le 1),
        fun _ => s3, fun _ => s3, ?_, ?_⟩
      · rw [main_unfold w argv0 args hlen, if_pos hchk]
      · rintro ⟨inp, hin, _⟩
        simp [runInputs_append, c1, q1] at hin
      · intro _ h; exact absurd h hchk
  · have hshort : ∃ r, main w argv0 args = some r ∧
        (∀ e ∈ r.trace, isPushBack e = false ∧ isUnload e = false ∧
          stepElastices [] e = []) ∧ r.trace.length = 1 ∧
        runInputs r.trace = [] := by
      match args, hlen with
      | [], _ => exact ⟨_, rfl, by simp [isPushBack, isUnload, stepElastices],
          rfl, rfl⟩
      | [a], _ =>
        simp only [main]
        by_cases h1 : a = "-help" ∨ a = "--help"
        · rw [if_pos h1]
          exact ⟨_, rfl, by simp [isPushBack, isUnload, stepElastices], rfl,
            rfl⟩
        · rw [if_neg h1]
          by_cases h2 : a = "--version"
          · rw [if_pos h2]
            exact ⟨_, rfl, by simp [isPushBack, isUnload, stepElastices], rfl,
              rfl⟩
          · rw [if_neg h2]
            exact ⟨_, rfl, by simp [isPushBack, isUnload, stepElastices], rfl,
              rfl⟩
      | _ :: _ :: _, h => simp at h
    obtain ⟨r, hr, hev, hl, hruns⟩ := hshort
    obtain ⟨e, he⟩ : ∃ e, r.trace = [e] := by
      match hm : r.trace, hl with
      | [e], _ => exact ⟨e, rfl⟩
    have hprops := hev e (by rw [he]; simp)
    have hun : unloads r.trace = 0 := by
      rw [he]
      cases e <;> simp [unloads, isUnload] at hprops ⊢
    refine ⟨r, hr, ?_, by omega, fun _ => hun, fun _ => hun, ?_, ?_⟩
    · rw [he]
      refine ⟨by simp [alive], fun _ => by simp [alive], ?_⟩
      show alive _ ≤ 1
      rw [hprops.2.2]
      simp [alive]
    · rintro ⟨inp, hin, _⟩
      rw [hruns] at hin
      simp at hin
    · intro h; omega

theorem orInt_zero_left (x : Int) (hlo : -2 ^ 31 ≤ x) (hhi : x < 2 ^ 31) :
    orInt 0 x = x := by
  have h0 : bitsOfInt 0 = 0 := by decide
  unfold orInt
  rw [h0, Nat.zero_or]
  unfold toInt32 bitsOfInt
  have h1 : 0 ≤ x % 2 ^ 32 := Int.emod_nonneg _ (by norm_num)
  have h2 : ((x % 2 ^ 32).toNat : Int) = x % 2 ^ 32 := Int.toNat_of_nonneg h1
  split
  · rename_i hlt
    have : ((x % 2 ^ 32).toNat : Int) < 2 ^ 31 := by exact_mod_cast hlt
    omega
  · rename_i hge
    have : ¬ ((x % 2 ^ 32).toNat : Int) < 2 ^ 31 := by
      intro h
      apply hge
      exact_mod_cast h
    omega

theorem checkSetup_xout_fails (w : World) (st : ParseState)
    (ho : st.outFolderPresent = true)
    (hd : w.FileIsDirectory st.outFolder = true)
    (hx : w.xoutSetup (st.outFolder ++ "elastix.log") ≠ 0)
    (hlo : -2 ^ 31 ≤ w.xoutSetup (st.outFolder ++ "elastix.log"))
    (hhi : w.xoutSetup (st.outFolder ++ "elastix.log") < 2 ^ 31) :
    (checkSetup w st).1 ≠ 0 := by
  unfold checkSetup
  by_cases hn : st.nrOfParameterFiles = 0
  · simp [hn, ho, hd, orInt_zero_neg_one, orInt_neg_one]
  · simp [hn, ho, hd, orInt_zero_left _ hlo hhi, hx]

theorem outFolder_of_last (args : List String) (v : String)
    (hv : (keyValues args "-out").getLast? = some v) :
    (parseArgs args ParseState.init).outFolderPresent = true ∧
    (parseArgs args ParseState.init).outFolder = appendSlash v := by
  have hop := parseArgs_outFolderPresent args ParseState.init
  have hof := parseArgs_outFolder args ParseState.init
  have hne : keyValues args "-out" ≠ [] := by
    intro h; rw [h] at hv; simp at hv
  constructor
  · rw [hop]
    cases hk : keyValues args "-out" with
    | nil => exact absurd hk hne
    | cons a l => rfl
  · rw [hof]; exact foldl_last _ _ _ hv

theorem passes_checkSetup (w : World) (args : List String)
    (hsetup : PassesSetup w args) :
    2 ≤ args.length ∧
    (checkSetup w (parseArgs args ParseState.init)).1 = 0 := by
  obtain ⟨hp, v, hv, hd, hx⟩ := hsetup
  have hpne : keyValues args "-p" ≠ [] := by
    intro h; rw [h] at hp; simp at hp
  obtain ⟨ho, hf⟩ := outFolder_of_last args v hv
  have hnr : (parseArgs args ParseState.init).nrOfParameterFiles ≠ 0 := by
    rw [parseArgs_nr]
    simp only [ParseState.init]
    omega
  refine ⟨two_le_of_key args "-p" hpne, ?_⟩
  rw [checkSetup_ok w _ hnr ho (by rw [hf]; exact hd) (by rw [hf]; exact hx)]

/-! ## The claims on the end of the run and on the stage objects -/

/-- C22 (successful run): after a successful set-up with `n` parameter files,
when every call of `Run` returns 0, `main` calls `Run` exactly `n` times,
releases every stage object, calls `UnloadComponents` exactly once, as the
last step of the run (so after the last stage has finished and been
released, with all entries of the stage vector null), and returns 0. -/
theorem main_successful_run (w : World) (argv0 : String) (args : List String)
    (hsetup : PassesSetup w args) :
    ∃ r, main w argv0 args = some r ∧
      ((∀ inp ∈ runInputs r.trace, (w.Run inp).returnCode = 0) →
        (runInputs r.trace).length = (keyValues args "-p").length ∧
        unloads r.trace = 1 ∧
        r.trace.getLast? = some Event.UnloadComponents ∧
        (∀ i, i < (keyValues args "-p").length → i ∈ releases r.trace) ∧
        (∀ v ∈ elasticesBefore isUnload [] r.trace, alive v = 0) ∧
        r.returnValue = 0) := by
  obtain ⟨hlen, hchk⟩ := passes_checkSetup w args hsetup
  obtain ⟨r, hr, t1, _, _, _, _, t6⟩ := main_trace w argv0 args
  refine ⟨r, hr, ?_⟩
  intro hall
  obtain ⟨u1, u2, u3, u4, u5⟩ := t6 hlen hchk hall
  refine ⟨u4, u1, u2, ?_, (oneStageAlive_before _ _ t1).2.2, u5⟩
  intro i hi
  rw [u3]
  simp [hi]

theorem main_successful_run_witness :
    PassesSetup successWorld exampleArgs ∧
    ∃ r, main successWorld "elastix" exampleArgs = some r ∧
      (runInputs r.trace).length = 3 ∧ unloads r.trace = 1 ∧
      r.trace.getLast? = some Event.UnloadComponents ∧ r.returnValue = 0 := by
  have hs : PassesSetup successWorld exampleArgs :=
    ⟨by decide, "out", by decide, by decide, by decide⟩
  obtain ⟨r, hr, h⟩ := main_successful_run successWorld "elastix" exampleArgs hs
  obtain ⟨h1, h2, h3, _, _, h6⟩ := h (fun _ _ => rfl)
  exact ⟨hs, r, hr, h1, h2, h3, h6⟩

/-- C24 (at most one stage alive): in every run of `main`, at every point of
the trace at most one entry of the stage vector is not null; right before
every `push_back` of a new stage object all entries are null, so the object
of the stage before has been released; and all entries are null right before
`UnloadComponents` is called. -/
theorem main_one_stage_alive (w : World) (argv0 : String)
    (args : List String) :
    ∃ r, main w argv0 args = some r ∧
      (∀ v ∈ elasticesBefore (fun _ => true) [] r.trace, alive v ≤ 1) ∧
      alive (elasticesAfter [] r.trace) ≤ 1 ∧
      (∀ v ∈ elasticesBefore isPushBack [] r.trace, alive v = 0) ∧
      (∀ v ∈ elasticesBefore isUnload [] r.trace, alive v = 0) := by
  obtain ⟨r, hr, t1, _⟩ := main_trace w argv0 args
  obtain ⟨b1, b2, b3⟩ := oneStageAlive_before _ _ t1
  exact ⟨r, hr, b1 _, oneStageAlive_last _ _ t1, b2, b3⟩

/-- C25 (no module unload on a failed run): `main` returns for every command
line and calls `UnloadComponents` at most once; it does not call it when a
call of `Run` returned a non-zero code, nor when the set-up fails: no `-p`,
no `-out`, an output folder that is not a directory, or `xoutSetup` returning
a non-zero `int`; and when it is called, the command line had a `-p` and
every call of `Run` returned 0. -/
theorem main_no_unload_on_failure (w : World) (argv0 : String)
    (args : List String) :
    ∃ r, main w argv0 args = some r ∧
      unloads r.trace ≤ 1 ∧
      ((∃ inp ∈ runInputs r.trace, (w.Run inp).returnCode ≠ 0) →
        unloads r.trace = 0) ∧
      (keyValues args "-p" = [] → unloads r.trace = 0) ∧
      (keyValues args "-out" = [] → unloads r.trace = 0) ∧
      (∀ v, (keyValues args "-out").getLast? = some v →
        w.FileIsDirectory (appendSlash v) = false → unloads r.trace = 0) ∧
      (∀ v, (keyValues args "-out").getLast? = some v →
        w.FileIsDirectory (appendSlash v) = true →
        w.xoutSetup (appendSlash v ++ "elastix.log") ≠ 0 →
        -2 ^ 31 ≤ w.xoutSetup (appendSlash v ++ "elastix.log") →
        w.xoutSetup (appendSlash v ++ "elastix.log") < 2 ^ 31 →
        unloads r.trace = 0) ∧
      (unloads r.trace = 1 →
        1 ≤ (keyValues args "-p").length ∧
        ∀ inp ∈ runInputs r.trace, (w.Run inp).returnCode = 0) := by
  obtain ⟨r, hr, _, t2, t3, t4, t5, _⟩ := main_trace w argv0 args
  have hnop : keyValues args "-p" = [] → unloads r.trace = 0 := by
    intro hp
    by_cases hlen : 2 ≤ args.length
    · apply t4
      have hnr : (parseArgs args ParseState.init).nrOfParameterFiles = 0 := by
        rw [parseArgs_nr, hp]; rfl
      rw [checkSetup_no_p w _ hnr]
      split <;> decide
    · exact t3 (by omega)
  refine ⟨r, hr, t2, fun h => (t5 h).1, hnop, ?_, ?_, ?_, ?_⟩
  · intro hout
    by_cases hlen : 2 ≤ args.length
    · apply t4
      have hp : (parseArgs args ParseState.init).outFolderPresent = false := by
        rw [parseArgs_outFolderPresent, hout]; rfl
      rw [(checkSetup_no_out w _ hp).1]
      decide
    · exact t3 (by omega)
  · intro v hv hd
    obtain ⟨ho, hf⟩ := outFolder_of_last args v hv
    exact t4 (checkSetup_no_directory w _ ho (by rw [hf]; exact hd)).1
  · intro v hv hd hx hlo hhi
    obtain ⟨ho, hf⟩ := outFolder_of_last args v hv
    exact t4 (checkSetup_xout_fails w _ ho (by rw [hf]; exact hd)
      (by rw [hf]; exact hx) (by rw [hf]; exact hlo) (by rw [hf]; exact hhi))
  · intro hone
    constructor
    · by_contra hp
      have : keyValues args "-p" = [] := by
        cases hk : keyValues args "-p" with
        | nil => rfl
        | cons a l => rw [hk] at hp; simp at hp
      have := hnop this
      omega
    · intro inp hin
      by_contra hne
      have := (t5 ⟨inp, hin, hne⟩).1
      omega

theorem main_no_unload_on_failure_witness :
    keyValues ["-f", "fixed.mhd", "-out", "out"] "-p" = [] ∧
    (∃ r, main exampleWorld "elastix" ["-f", "fixed.mhd", "-out", "out"] =
      some r ∧ unloads r.trace = 0) ∧
    ∃ r, main exampleWorld "elastix" exampleArgs = some r ∧
      (∃ inp ∈ runInputs r.trace, (exampleWorld.Run inp).returnCode ≠ 0) ∧
      unloads r.trace = 0 := by
  refine ⟨by decide, ?_, ?_⟩
  · obtain ⟨r, hr, _, _, h, _⟩ := main_no_unload_on_failure exampleWorld
      "elastix" ["-f", "fixed.mhd", "-out", "out"]
    exact ⟨r, hr, h (by decide)⟩
  · obtain ⟨r, hr, _, h, _⟩ :=
      main_no_unload_on_failure exampleWorld "elastix" exampleArgs
    have hval : (main exampleWorld "elastix" exampleArgs).map
        (fun r => (runInputs r.trace).map
          (fun inp => (exampleWorld.Run inp).returnCode)) = some [0, 7] := by
      decide
    rw [hr] at hval
    simp only [Option.map_some', Option.some.injEq] at hval
    have hmem : (7 : Int) ∈ (runInputs r.trace).map
        (fun inp => (exampleWorld.Run inp).returnCode) := by
      rw [hval]; simp
    obtain ⟨inp, hin, hcode⟩ := List.mem_map.mp hmem
    have hex : ∃ inp ∈ runInputs r.trace,
        (exampleWorld.Run inp).returnCode ≠ 0 :=
      ⟨inp, hin, by rw [hcode]; decide⟩
    exact ⟨r, hr, hex, h hex⟩

theorem main_one_stage_alive_witness :
    ∃ r, main successWorld "elastix" exampleArgs = some r ∧
      (∀ v ∈ elasticesBefore (fun _ => true) [] r.trace, alive v ≤ 1) ∧
      (∀ v ∈ elasticesBefore isPushBack [] r.trace, alive v = 0) ∧
      (∀ v ∈ elasticesBefore isUnload [] r.trace, alive v = 0) := by
  obtain ⟨r, hr, h1, _, h3, h4⟩ :=
    main_one_stage_alive successWorld "elastix" exampleArgs
  exact ⟨r, hr, h1, h3, h4⟩

end elastix
